import Mathlib

/-! Forward-mode AD scalar (`Scalar.h`, `UnaryNegateOp.h`).

A shallow embedding of the concrete `Scalar` type and of the negate operator,
and of the parts of the library whose headers are not at hand (the merge of
parameter maps, binary operators, `at`, vectors, iterators), each of those
marked as modelled from the specification; followed by theorems about
construction, materialisation, introspection, derivatives and usage errors.

Conventions of the embedding:
* a C++ `double` is an IEEE-754 binary64 datum given by its three bit fields;
  unary minus is a sign flip, and `+`, `-`, `*` round to nearest, ties to even;
* a `std::shared_ptr< Parameter >` is the address of the pointee; the live
  `Parameter` objects are kept in an explicit `Heap`;
* `std::map< ParameterPtr, Span >` is a list of entries strictly increasing in
  the key, the order `std::map` iterates in;
* `Eigen::Matrix< double, 1, -1 >` is a list of doubles.
-/

namespace metal

/-! ## Doubles -/

/-- IEEE-754 binary64: sign bit, 11-bit biased exponent, 52-bit fraction. -/
structure Double where
  sign : Bool
  exponent : Fin 2048
  fraction : Fin 4503599627370496
  deriving DecidableEq, Repr

namespace Double

/-- The literal `0.0`. -/
def zero : Double := ⟨false, 0, 0⟩

/-- The literal `1.0` (biased exponent 1023, empty fraction). -/
def one : Double := ⟨false, 1023, 0⟩

/-- Unary minus on a double: the sign bit is flipped, nothing else changes. -/
def neg (x : Double) : Double := { x with sign := !x.sign }

/-- Not a number: exponent field all ones, fraction non-zero. -/
def isNaN (x : Double) : Bool := x.exponent.val == 2047 && x.fraction.val != 0

/-- An infinity: exponent field all ones, fraction zero. -/
def isInf (x : Double) : Bool := x.exponent.val == 2047 && x.fraction.val == 0

/-- Neither a NaN nor an infinity. -/
def isFinite (x : Double) : Bool := x.exponent.val != 2047

/-- A zero of either sign. -/
def isZero (x : Double) : Bool := x.exponent.val == 0 && x.fraction.val == 0

/-- The integer significand of a finite double, whose magnitude is
`significand * 2 ^ (scale - 1074)`. -/
def significand (x : Double) : Nat :=
  if x.exponent.val = 0 then x.fraction.val else 4503599627370496 + x.fraction.val

/-- The binary scale of a finite double (0 for zeros and subnormals). -/
def scale (x : Double) : Nat := x.exponent.val - 1

/-- The zero with sign bit `s`. -/
def signedZero (s : Bool) : Double := ⟨s, 0, 0⟩

/-- The infinity with sign bit `s`. -/
def infinity (s : Bool) : Double := ⟨s, 2047, 0⟩

/-- The NaN delivered by an invalid operation (a quiet NaN). -/
def defaultNaN : Double := ⟨true, 2047, ⟨2251799813685248, by decide⟩⟩

/-- A double from sign, biased exponent and significand; an exponent beyond
the largest finite one gives the infinity of that sign. -/
def pack (s : Bool) (e q : Nat) : Double :=
  if h : e < 2047 then
    ⟨s, ⟨e, by omega⟩, ⟨q % 4503599627370496, Nat.mod_lt _ (by decide)⟩⟩
  else infinity s

/-- Number of binary digits of `n`, found by halving at most `fuel` times. -/
def bitLen : Nat → Nat → Nat
  | 0, _ => 0
  | fuel + 1, n => if n = 0 then 0 else bitLen fuel (n / 2) + 1

/-- Number of binary digits of `n` (0 for 0). -/
def bitLength (n : Nat) : Nat := bitLen n n

/-- The double nearest to `m * 2 ^ (t - 2148)` with sign `s`, ties going to the
even significand (the default IEEE-754 rounding), with gradual underflow and
overflow to infinity. -/
def roundPack (s : Bool) (m t : Nat) : Double :=
  if m = 0 then signedZero s
  else
    let len := bitLength m
    let r := if len + t ≥ 1127 then len - 53 else 1074 - t
    let l := if len + t ≥ 1127 then 53 - len else t - 1074
    let scaled := m * 2 ^ l
    let q0 := scaled / 2 ^ r
    let rem := scaled % 2 ^ r
    let q := if 2 * rem > 2 ^ r ∨ (2 * rem = 2 ^ r ∧ q0 % 2 = 1) then q0 + 1 else q0
    let f := t + r - l
    if q < 4503599627370496 then pack s 0 q
    else if q < 9007199254740992 then pack s (f - 1073) q
    else pack s (f - 1072) 0

/-- The quiet form of a datum: a NaN gets its leading fraction bit set, sign
and payload kept; any other datum is left as it is. -/
def quiet (x : Double) : Double :=
  if x.isNaN then
    ⟨x.sign, x.exponent,
      ⟨x.fraction.val % 2251799813685248 + 2251799813685248, by
        have := Nat.mod_lt x.fraction.val (show 0 < 2251799813685248 by decide)
        omega⟩⟩
  else x

/-- The product `x * y` of two doubles. A NaN operand is delivered in its
quiet form (the first operand if both are NaN; which of two NaN operands
survives depends on the order in which the build passes them to the
hardware); infinity times zero is the default NaN. -/
@[irreducible] def mul (x y : Double) : Double :=
  if x.isNaN then quiet x
  else if y.isNaN then quiet y
  else if x.isInf || y.isInf then
    if x.isZero || y.isZero then defaultNaN else infinity (x.sign != y.sign)
  else roundPack (x.sign != y.sign) (x.significand * y.significand) (x.scale + y.scale)

/-- The sum `x + y` of two doubles. A NaN operand is delivered in its quiet
form (the first operand if both are NaN); infinities of opposite sign add up
to the default NaN; an exact cancellation gives `+0.0`. -/
@[irreducible] def add (x y : Double) : Double :=
  if x.isNaN then quiet x
  else if y.isNaN then quiet y
  else if x.isInf then (if y.isInf && x.sign != y.sign then defaultNaN else x)
  else if y.isInf then y
  else
    let t := min x.scale y.scale
    let a := x.significand * 2 ^ (x.scale - t)
    let b := y.significand * 2 ^ (y.scale - t)
    if x.sign = y.sign then roundPack x.sign (a + b) (t + 1074)
    else if b < a then roundPack x.sign (a - b) (t + 1074)
    else if a < b then roundPack y.sign (b - a) (t + 1074)
    else zero

/-- The difference `x - y` of two doubles. A NaN operand is delivered in its
quiet form with its own sign; otherwise the difference is the sum of `x` and
`-y`. -/
def sub (x y : Double) : Double :=
  if x.isNaN then quiet x
  else if y.isNaN then quiet y
  else add x (neg y)

/-- The double with the given 64-bit pattern (sign, exponent, fraction from
the most significant bit down). -/
def ofBits (n : Nat) : Double :=
  ⟨decide (n / 9223372036854775808 % 2 = 1),
    ⟨n / 4503599627370496 % 2048, Nat.mod_lt _ (by decide)⟩,
    ⟨n % 4503599627370496, Nat.mod_lt _ (by decide)⟩⟩

end Double

/-! ## Parameters, shared pointers and the heap -/

/-- An object address. -/
abbrev Addr := Nat

/-- Modelled from the spec: the class `Parameter` is declared in a header that is
not among the sources. It is an identity token carrying a declared width and a
name; `Scalar.h` constructs it as `Parameter( 1, name )`. -/
structure Parameter where
  dim : Int
  name : String
  deriving DecidableEq, Repr

/-- A `ParameterPtr` (`std::shared_ptr< Parameter >`) is compared and ordered by
the address it holds, so it is embedded as that address. -/
abbrev ParameterPtr := Addr

/-- The live `Parameter` objects, most recently allocated first. Objects are
never freed in this model: every value built so far is taken to be alive. -/
structure Heap where
  cells : List (Addr × Parameter)
  deriving DecidableEq, Repr

namespace Heap

/-- The heap before anything is allocated. -/
def empty : Heap := ⟨[]⟩

/-- Addresses currently occupied by a live `Parameter`. -/
def live (h : Heap) : List Addr := h.cells.map Prod.fst

/-- Dereferencing a pointer: the object stored at that address, if any. -/
def deref (h : Heap) (p : ParameterPtr) : Option Parameter :=
  (h.cells.find? (fun c => c.1 == p)).map Prod.snd

end Heap

/-- The call `std::make_shared< Parameter >( dim, name )`. The address `addr` is
the one the allocator hands out; an allocator only hands out addresses that are
not occupied, which theorems needing it state as `addr ∉ h.live`. -/
def make_shared (h : Heap) (addr : Addr) (dim : Int) (name : String) :
    ParameterPtr × Heap :=
  (addr, ⟨(addr, ⟨dim, name⟩) :: h.cells⟩)

/-! ## Spans, derivative rows and parameter maps -/

/-- The alias `Span = std::pair< int, int >`: offset and length in the row. -/
abbrev Span := Int × Int

/-- The alias `Partial = Eigen::Matrix< double, 1, -1 >`: a row of doubles. -/
abbrev Partial := List Double

/-- The alias `ParameterPtrVector`, a `std::vector` of parameter pointers. -/
abbrev ParameterPtrVector := List ParameterPtr

/-- Keys strictly increasing: the ordering `std::map` maintains. -/
def keysIncreasing (l : List (ParameterPtr × Span)) : Prop :=
  (l.map Prod.fst).Pairwise (fun a b => a < b)

instance (l : List (ParameterPtr × Span)) : Decidable (keysIncreasing l) := by
  unfold keysIncreasing
  infer_instance

/-- Insertion of one entry in key order, as `std::map::insert` does it: an entry
whose key is already present is left as it is. -/
def insertEntry (k : ParameterPtr) (v : Span) :
    List (ParameterPtr × Span) → List (ParameterPtr × Span)
  | [] => [(k, v)]
  | (k', v') :: rest =>
    if k < k' then (k, v) :: (k', v') :: rest
    else if k' < k then (k', v') :: insertEntry k v rest
    else (k', v') :: rest

theorem mem_keys_insertEntry (k : ParameterPtr) (v : Span) (x : ParameterPtr) :
    ∀ l : List (ParameterPtr × Span),
      x ∈ (insertEntry k v l).map Prod.fst → x = k ∨ x ∈ l.map Prod.fst
  | [] => by
    intro hx
    simpa [insertEntry] using hx
  | (k', v') :: rest => by
    intro hx
    unfold insertEntry at hx
    split_ifs at hx with h1 h2
    · simpa using hx
    · simp only [List.map_cons, List.mem_cons] at hx ⊢
      rcases hx with hx | hx
      · exact Or.inr (Or.inl hx)
      · rcases mem_keys_insertEntry k v x rest hx with h | h
        · exact Or.inl h
        · exact Or.inr (Or.inr h)
    · exact Or.inr hx

theorem keysIncreasing_insertEntry (k : ParameterPtr) (v : Span) :
    ∀ l : List (ParameterPtr × Span), keysIncreasing l → keysIncreasing (insertEntry k v l)
  | [] => by
    intro _
    simp [insertEntry, keysIncreasing]
  | (k', v') :: rest => by
    intro hl
    unfold insertEntry
    unfold keysIncreasing at hl
    simp only [List.map_cons, List.pairwise_cons] at hl
    split_ifs with h1 h2
    · unfold keysIncreasing
      simp only [List.map_cons, List.pairwise_cons, List.mem_cons]
      refine ⟨?_, hl.1, hl.2⟩
      rintro a (rfl | ha)
      · exact h1
      · exact lt_trans h1 (hl.1 a ha)
    · have ih := keysIncreasing_insertEntry k v rest hl.2
      unfold keysIncreasing at ih ⊢
      simp only [List.map_cons, List.pairwise_cons]
      refine ⟨?_, ih⟩
      intro a ha
      rcases mem_keys_insertEntry k v a rest ha with rfl | h
      · exact h2
      · exact hl.1 a h
    · unfold keysIncreasing
      simp only [List.map_cons, List.pairwise_cons]
      exact hl

/-- The alias `ParameterMap = std::map< ParameterPtr, Span >`: the entries in
iteration order together with the ordering invariant of `std::map`. -/
structure ParameterMap where
  entries : List (ParameterPtr × Span)
  ordered : keysIncreasing entries

namespace ParameterMap

theorem ext_entries {a b : ParameterMap} (h : a.entries = b.entries) : a = b := by
  cases a
  cases b
  cases h
  rfl

instance : DecidableEq ParameterMap := fun a b =>
  if h : a.entries = b.entries then isTrue (ext_entries h)
  else isFalse (fun e => h (by rw [e]))

/-- The default-constructed map `parameterMap_()`. -/
def empty : ParameterMap := ⟨[], by simp [keysIncreasing]⟩

/-- The member `std::map::insert`. -/
def insert (m : ParameterMap) (k : ParameterPtr) (v : Span) : ParameterMap :=
  ⟨insertEntry k v m.entries, keysIncreasing_insertEntry k v m.entries m.ordered⟩

/-- Construction from a braced list of entries: each one is inserted in turn. -/
def ofList (l : List (ParameterPtr × Span)) : ParameterMap :=
  l.foldl (fun m e => m.insert e.1 e.2) empty

/-- The member `std::map::size`. -/
def size (m : ParameterMap) : Nat := m.entries.length

/-- The keys in iteration order. -/
def keys (m : ParameterMap) : List ParameterPtr := m.entries.map Prod.fst

end ParameterMap

/-- The Eigen nullary expression `Ones()` of a row with `n` coefficients. -/
def Ones (n : Nat) : Partial := List.replicate n Double.one

/-! ## The expression interface -/

/-- Modelled from the spec: `ScalarBase< Expr >` is declared in `ScalarBase.h`,
which is not among the sources. It is the static interface every expression
type offers: its value, its derivative row and its parameter map (the accessors
`value()`, `partial()` and `parameterMap()`). -/
structure ScalarBase (Expr : Type) where
  value : Expr → Double
  partialRow : Expr → Partial
  parameterMap : Expr → ParameterMap

/-- The accessors of an expression that a caller can invoke. -/
inductive Accessor where
  | value
  | partialRow
  | parameterMap
  deriving DecidableEq, Repr

/-- Computations that record, in call order, which accessors they invoked. -/
abbrev Eval := StateM (List Accessor)

namespace ScalarBase

/-- A recorded call `expr.value()`. -/
def callValue {Expr : Type} (b : ScalarBase Expr) (expr : Expr) : Eval Double := do
  modify (fun log => log ++ [Accessor.value])
  pure (b.value expr)

/-- A recorded call `expr.partial()`. -/
def callPartial {Expr : Type} (b : ScalarBase Expr) (expr : Expr) : Eval Partial := do
  modify (fun log => log ++ [Accessor.partialRow])
  pure (b.partialRow expr)

/-- A recorded call `expr.parameterMap()`. -/
def callParameterMap {Expr : Type} (b : ScalarBase Expr) (expr : Expr) :
    Eval ParameterMap := do
  modify (fun log => log ++ [Accessor.parameterMap])
  pure (b.parameterMap expr)

end ScalarBase

/-! ## The concrete type `Scalar` -/

/-- The class `Scalar`: its three data members. -/
structure Scalar where
  value_ : Double
  partial_ : Partial
  parameterMap_ : ParameterMap
  deriving DecidableEq

/-- The constructor `explicit Scalar( double value = 0.0 )` with its argument. -/
def Scalar.ofValue (value : Double) : Scalar :=
  { value_ := value, partial_ := [], parameterMap_ := ParameterMap.empty }

/-- The constructor `explicit Scalar( double value = 0.0 )` called with no
argument: the default argument `0.0` is used. -/
def Scalar.ofNothing : Scalar := Scalar.ofValue Double.zero

/-- The constructor `Scalar( double value, const std::string& name )`. It
allocates the parameter, so it takes the heap and the address the allocator
hands out, and returns the heap after the allocation. -/
def Scalar.ofName (h : Heap) (addr : Addr) (value : Double) (name : String) : Scalar × Heap :=
  let alloc := make_shared h addr 1 name
  ({ value_ := value,
     partial_ := Ones 1,
     parameterMap_ := ParameterMap.ofList [(alloc.1, ((0 : Int), (1 : Int)))] },
   alloc.2)

/-- The constructor `Scalar( const ScalarBase< Expr >& expr )`, with every
accessor call on `expr` recorded. -/
def Scalar.ofExprLogged {Expr : Type} (b : ScalarBase Expr) (expr : Expr) : Eval Scalar := do
  let value_ ← b.callValue expr
  let partial_ ← b.callPartial expr
  let parameterMap_ ← b.callParameterMap expr
  pure { value_ := value_, partial_ := partial_, parameterMap_ := parameterMap_ }

/-- The constructor `Scalar( const ScalarBase< Expr >& expr )`: the object it
builds, started from an empty call record. -/
def Scalar.ofExpr {Expr : Type} (b : ScalarBase Expr) (expr : Expr) : Scalar :=
  ((Scalar.ofExprLogged b expr).run []).1

/-- The implicitly declared copy constructor `Scalar( const Scalar& )`:
member-wise copy. -/
def Scalar.copy (s : Scalar) : Scalar :=
  { value_ := s.value_, partial_ := s.partial_, parameterMap_ := s.parameterMap_ }

/-- The member `value()`. -/
def Scalar.value (s : Scalar) : Double := s.value_

/-- The member `partial()`. -/
def Scalar.partial (s : Scalar) : Partial := s.partial_

/-- The member `parameterMap()`. -/
def Scalar.parameterMap (s : Scalar) : ParameterMap := s.parameterMap_

/-- The member `dim()`: `partial_.size()`. -/
def Scalar.dim (s : Scalar) : Nat := s.partial_.length

/-- The member `size()`: `parameterMap_.size()`. -/
def Scalar.size (s : Scalar) : Nat := s.parameterMap_.size

/-- The member `parameters()`: the loop pushes the key of every entry, in
iteration order, onto the back of `out`. -/
def Scalar.parameters (s : Scalar) : ParameterPtrVector :=
  s.parameterMap_.entries.foldl (fun out entry => out ++ [entry.1]) []

/-- The class `Scalar` seen through its base `ScalarBase< Scalar >`. -/
def Scalar.asExpr : ScalarBase Scalar :=
  { value := Scalar.value, partialRow := Scalar.partial, parameterMap := Scalar.parameterMap }

/-! ## The negate operator -/

/-- The struct `NegateOp< Expr >`: it has no data member. -/
structure NegateOp where
  deriving DecidableEq, Repr

/-- The member `applyToValue`: `return -value;`. -/
def NegateOp.applyToValue (_op : NegateOp) (value : Double) : Double := Double.neg value

/-- The member `partial`: `return -1.0;`, whatever the argument. -/
def NegateOp.partial (_op : NegateOp) (_value : Double) : Double := Double.neg Double.one

/-- Modelled from the spec: the interface a unary operation offers to
`ScalarUnaryOp` (whose header is not among the sources): the transform of the
value (`applyToValue`) and the local derivative (`partial`). -/
structure UnaryOp (Op : Type) where
  applyToValue : Op → Double → Double
  partialAt : Op → Double → Double

/-- The struct `NegateOp` seen as a unary operation. -/
def NegateOp.asOp : UnaryOp NegateOp :=
  { applyToValue := NegateOp.applyToValue, partialAt := NegateOp.partial }

/-- Modelled from the spec: `ScalarUnaryOp< Expr, Op >` is declared in
`ScalarUnaryOp.h`, which is not among the sources. It is the expression node
holding an operand and a unary operation. -/
structure ScalarUnaryOp (Expr Op : Type) where
  expr : Expr
  op : Op

/-- Modelled from the spec: the value of a unary node,
`y.value = op.valueFn(x.value)`. -/
def ScalarUnaryOp.value {Expr Op : Type} (b : ScalarBase Expr) (o : UnaryOp Op)
    (y : ScalarUnaryOp Expr Op) : Double :=
  o.applyToValue y.op (b.value y.expr)

/-- Modelled from the spec: the derivative row of a unary node,
`y.partial = op.derivativeFn(x.value) * x.partial`, a scalar multiple of the
whole row. The product of two doubles is the numeric primitive `mul`. -/
def ScalarUnaryOp.partial {Expr Op : Type} (mul : Double → Double → Double) (b : ScalarBase Expr)
    (o : UnaryOp Op) (y : ScalarUnaryOp Expr Op) : Partial :=
  (b.partialRow y.expr).map (fun d => mul (o.partialAt y.op (b.value y.expr)) d)

/-- Modelled from the spec: the parameter map of a unary node,
`y.parameterMap = x.parameterMap`. -/
def ScalarUnaryOp.parameterMap {Expr Op : Type} (b : ScalarBase Expr) (y : ScalarUnaryOp Expr Op) :
    ParameterMap :=
  b.parameterMap y.expr

/-- Modelled from the spec: a unary node seen through its base `ScalarBase`,
offering the three accessors above. -/
def ScalarUnaryOp.asExpr {Expr Op : Type} (mul : Double → Double → Double) (b : ScalarBase Expr)
    (o : UnaryOp Op) : ScalarBase (ScalarUnaryOp Expr Op) :=
  { value := ScalarUnaryOp.value b o, partialRow := ScalarUnaryOp.partial mul b o,
    parameterMap := ScalarUnaryOp.parameterMap b }

/-- The function `operator-( const ScalarBase< Expr >& expr )`: a unary node
over `expr` with a fresh `NegateOp`. -/
def operatorMinus {Expr : Type} (expr : Expr) : ScalarUnaryOp Expr NegateOp :=
  { expr := expr, op := {} }

/-! ## The layout invariant of a parameter map -/

/-- Two spans share no position of the row. -/
def spansDisjoint (a b : Span) : Prop :=
  a.2 ≤ 0 ∨ b.2 ≤ 0 ∨ a.1 + a.2 ≤ b.1 ∨ b.1 + b.2 ≤ a.1

instance (a b : Span) : Decidable (spansDisjoint a b) := by
  unfold spansDisjoint
  infer_instance

/-- The declared width of the parameter a pointer refers to (0 if dangling). -/
def Heap.width (h : Heap) (p : ParameterPtr) : Int :=
  match h.deref p with
  | some q => q.dim
  | none => 0

/-- The layout invariant relating a derivative row and a parameter map: spans
pairwise non-overlapping, the length of each span equal to the width of its
parameter, and the span lengths adding up to the length of the row. -/
def layoutInvariant (h : Heap) (row : Partial) (m : ParameterMap) : Prop :=
  (m.entries.map Prod.snd).Pairwise spansDisjoint ∧
  (∀ e ∈ m.entries, (h.deref e.1).map Parameter.dim = some e.2.2) ∧
  (m.entries.map (fun e => e.2.2)).sum = (row.length : Int)

instance (h : Heap) (row : Partial) (m : ParameterMap) :
    Decidable (layoutInvariant h row m) := by
  unfold layoutInvariant
  infer_instance

/-- The layout invariant of a concrete `Scalar`. -/
def Scalar.wellLaidOut (h : Heap) (s : Scalar) : Prop :=
  layoutInvariant h ( Scalar.partial s) s.parameterMap

instance (h : Heap) (s : Scalar) : Decidable (s.wellLaidOut h) := by
  unfold Scalar.wellLaidOut
  infer_instance

/-! ## Lookup, segments and `at` -/

/-- The member `std::map::find`: the span stored under a key, if any. -/
def ParameterMap.find (m : ParameterMap) (k : ParameterPtr) : Option Span :=
  (m.entries.find? (fun e => e.1 == k)).map Prod.snd

/-- The Eigen block `row.segment( offset, length )`. -/
def segment (row : Partial) (sp : Span) : Partial :=
  (row.drop sp.1.toNat).take sp.2.toNat

/-- The usage errors that have to be reported. -/
inductive UsageError where
  | untrackedParameter
  | crossArity
  deriving DecidableEq, Repr

/-- Modelled from the spec: the accessor `at( parameter )`, declared in
`ScalarBase.h` (not among the sources). It yields the derivative segment for
that parameter and fails if the parameter is not tracked. -/
def ScalarBase.at {Expr : Type} (b : ScalarBase Expr) (expr : Expr) (p : ParameterPtr) :
    Except UsageError Partial :=
  match (b.parameterMap expr).find p with
  | some sp => Except.ok (segment (b.partialRow expr) sp)
  | none => Except.error UsageError.untrackedParameter

/-- Modelled from the spec: the accessor `dim()` of an expression, declared in
`ScalarBase.h` (not among the sources): the total derivative width. -/
def ScalarBase.dim {Expr : Type} (b : ScalarBase Expr) (expr : Expr) : Nat :=
  (b.partialRow expr).length

/-! ## Merging two parameter maps -/

/-- Modelled from the spec: the parameters of a merge, the ordered union of
the keys of both maps. A parameter of both maps is kept once, with the span
length recorded in the first map. The merge is in a header that is not among
the sources. -/
def unionEntries (a b : List (ParameterPtr × Span)) : List (ParameterPtr × Span) :=
  b.foldl (fun acc e => insertEntry e.1 e.2 acc) a

/-- Modelled from the spec: the newly assigned offsets of a merged map, one
span after the other in key order, starting at `off`. -/
def assignOffsets (off : Int) : List (ParameterPtr × Span) → List (ParameterPtr × Span)
  | [] => []
  | (k, sp) :: rest => (k, (off, sp.2)) :: assignOffsets (off + sp.2) rest

theorem keysIncreasing_unionEntries (b : List (ParameterPtr × Span)) :
    ∀ a : List (ParameterPtr × Span), keysIncreasing a → keysIncreasing (unionEntries a b) := by
  induction b with
  | nil => intro a ha; exact ha
  | cons e rest ih =>
    intro a ha
    exact ih (insertEntry e.1 e.2 a) (keysIncreasing_insertEntry e.1 e.2 a ha)

theorem keys_assignOffsets (l : List (ParameterPtr × Span)) :
    ∀ off : Int, (assignOffsets off l).map Prod.fst = l.map Prod.fst := by
  induction l with
  | nil => intro off; rfl
  | cons e rest ih =>
    intro off
    obtain ⟨k, sp⟩ := e
    simp [assignOffsets, ih]

/-- Modelled from the spec: the result of `merge( mapA, mapB )`: the merged map
and, for each of its entries, the span of each operand that supplies it (none
where the operand does not track the parameter). -/
structure Merged where
  mergedMap : ParameterMap
  relayoutA : List (Option Span)
  relayoutB : List (Option Span)

/-- Modelled from the spec: `merge( mapA, mapB )`. -/
def merge (a b : ParameterMap) : Merged :=
  let m : ParameterMap :=
    ⟨assignOffsets 0 (unionEntries a.entries b.entries), by
      unfold keysIncreasing
      rw [keys_assignOffsets]
      exact keysIncreasing_unionEntries b.entries a.entries a.ordered⟩
  { mergedMap := m,
    relayoutA := m.entries.map (fun e => a.find e.1),
    relayoutB := m.entries.map (fun e => b.find e.1) }

/-- Modelled from the spec: the row of an operand laid out along the merged
map: each entry is supplied by the operand's own segment, or filled with zeros
where the operand does not track the parameter. -/
def relaid (row : Partial) : List (ParameterPtr × Span) → List (Option Span) → Partial
  | _ :: es, some src :: rs => segment row src ++ relaid row es rs
  | e :: es, none :: rs => List.replicate e.2.2.toNat Double.zero ++ relaid row es rs
  | _, _ => []

/-! ## Binary operators -/

/-- Modelled from the spec: the interface of a binary operation: the value
transform and the local partials with respect to each operand's value. -/
structure BinaryOp (Op : Type) where
  valueFn : Op → Double → Double → Double
  da : Op → Double → Double → Double
  db : Op → Double → Double → Double

/-- Modelled from the spec: the expression node of a binary operation, holding
both operands; its header is not among the sources. -/
structure ScalarBinaryOp (Left Right Op : Type) where
  lhs : Left
  rhs : Right
  op : Op

/-- Modelled from the spec: `y.value = op.valueFn(a.value, b.value)`. -/
def ScalarBinaryOp.value {Left Right Op : Type} (bl : ScalarBase Left) (br : ScalarBase Right)
    (o : BinaryOp Op) (y : ScalarBinaryOp Left Right Op) : Double :=
  o.valueFn y.op (bl.value y.lhs) (br.value y.rhs)

/-- Modelled from the spec: the map of a binary node is the merge of the maps
of its operands. -/
def ScalarBinaryOp.parameterMap {Left Right Op : Type} (bl : ScalarBase Left)
    (br : ScalarBase Right) (y : ScalarBinaryOp Left Right Op) : ParameterMap :=
  (merge (bl.parameterMap y.lhs) (br.parameterMap y.rhs)).mergedMap

/-- Modelled from the spec: over every span of the merged map,
`y.partial = da * aContribution + db * bContribution`, a contribution being
zero where the operand does not track the parameter. -/
def ScalarBinaryOp.partial {Left Right Op : Type} (bl : ScalarBase Left)
    (br : ScalarBase Right) (o : BinaryOp Op) (y : ScalarBinaryOp Left Right Op) : Partial :=
  let mg := merge (bl.parameterMap y.lhs) (br.parameterMap y.rhs)
  let da := o.da y.op (bl.value y.lhs) (br.value y.rhs)
  let db := o.db y.op (bl.value y.lhs) (br.value y.rhs)
  List.zipWith (fun x z => Double.add (Double.mul da x) (Double.mul db z))
    (relaid (bl.partialRow y.lhs) mg.mergedMap.entries mg.relayoutA)
    (relaid (br.partialRow y.rhs) mg.mergedMap.entries mg.relayoutB)

/-- Modelled from the spec: a binary node seen through its base `ScalarBase`. -/
def ScalarBinaryOp.asExpr {Left Right Op : Type} (bl : ScalarBase Left)
    (br : ScalarBase Right) (o : BinaryOp Op) : ScalarBase (ScalarBinaryOp Left Right Op) :=
  { value := ScalarBinaryOp.value bl br o, partialRow := ScalarBinaryOp.partial bl br o,
    parameterMap := ScalarBinaryOp.parameterMap bl br }

/-- Modelled from the spec: the operation `add`. -/
structure AddOp where
  deriving DecidableEq, Repr

/-- Modelled from the spec: `add` has value `a + b` and local partials 1, 1. -/
def AddOp.asOp : BinaryOp AddOp :=
  { valueFn := fun _ a b => Double.add a b,
    da := fun _ _ _ => Double.one,
    db := fun _ _ _ => Double.one }

/-- Modelled from the spec: the operation `subtract`. -/
structure SubtractOp where
  deriving DecidableEq, Repr

/-- Modelled from the spec: `subtract` has value `a - b` and local partials
1, -1. -/
def SubtractOp.asOp : BinaryOp SubtractOp :=
  { valueFn := fun _ a b => Double.sub a b,
    da := fun _ _ _ => Double.one,
    db := fun _ _ _ => Double.neg Double.one }

/-- Modelled from the spec: the operation `multiply`. -/
structure MultiplyOp where
  deriving DecidableEq, Repr

/-- Modelled from the spec: `multiply` has value `a * b` and local partials
`b`, `a`. -/
def MultiplyOp.asOp : BinaryOp MultiplyOp :=
  { valueFn := fun _ a b => Double.mul a b,
    da := fun _ _ b => b,
    db := fun _ a _ => a }

/-- Modelled from the spec: the operator form `lhs + rhs`. -/
def operatorPlus {Left Right : Type} (lhs : Left) (rhs : Right) :
    ScalarBinaryOp Left Right AddOp :=
  { lhs := lhs, rhs := rhs, op := {} }

/-- Modelled from the spec: the operator form `lhs - rhs`. -/
def operatorSubtract {Left Right : Type} (lhs : Left) (rhs : Right) :
    ScalarBinaryOp Left Right SubtractOp :=
  { lhs := lhs, rhs := rhs, op := {} }

/-- Modelled from the spec: the operator form `lhs * rhs`. -/
def operatorTimes {Left Right : Type} (lhs : Left) (rhs : Right) :
    ScalarBinaryOp Left Right MultiplyOp :=
  { lhs := lhs, rhs := rhs, op := {} }

/-- Modelled from the spec: the operation `sin`. -/
structure SinOp where
  deriving DecidableEq, Repr

/-- Modelled from the spec: `sin` with its textbook derivative `cos`; the two
functions of the numeric library are taken as `libmSin` and `libmCos`. -/
def SinOp.asOp (libmSin libmCos : Double → Double) : UnaryOp SinOp :=
  { applyToValue := fun _ v => libmSin v, partialAt := fun _ v => libmCos v }

/-- Modelled from the spec: the named function `sin( expr )`. -/
def sin {Expr : Type} (expr : Expr) : ScalarUnaryOp Expr SinOp :=
  { expr := expr, op := {} }

/-- The sum of two scalars, materialised. -/
def Scalar.plus (a b : Scalar) : Scalar :=
  Scalar.ofExpr (ScalarBinaryOp.asExpr Scalar.asExpr Scalar.asExpr AddOp.asOp)
    (operatorPlus a b)

/-- The difference of two scalars, materialised. -/
def Scalar.minus (a b : Scalar) : Scalar :=
  Scalar.ofExpr (ScalarBinaryOp.asExpr Scalar.asExpr Scalar.asExpr SubtractOp.asOp)
    (operatorSubtract a b)

/-- The product of two scalars, materialised. -/
def Scalar.times (a b : Scalar) : Scalar :=
  Scalar.ofExpr (ScalarBinaryOp.asExpr Scalar.asExpr Scalar.asExpr MultiplyOp.asOp)
    (operatorTimes a b)

/-! ## Vectors -/

/-- Modelled from the spec: a Vector is an ordered tuple of Differentiable
Values, one per geometric component. Its header is not among the sources. -/
abbrev Vector := List Scalar

/-- Modelled from the spec: the components of `create`, numbered from `i`:
every raw double becomes an independent named scalar with its own Parameter.
Each component comes with the address the allocator hands out for it. -/
def createFrom (stem : String) : Nat → Heap → List (Addr × Double) → Vector × Heap
  | _, h, [] => ([], h)
  | i, h, (addr, v) :: rest =>
    let head := Scalar.ofName h addr v (stem ++ toString i)
    let tail := createFrom stem (i + 1) head.2 rest
    (head.1 :: tail.1, tail.2)

/-- Modelled from the spec: `create( values, stem )`, a vector from raw doubles
and a shared name stem. -/
def create (h : Heap) (components : List (Addr × Double)) (stem : String) : Vector × Heap :=
  createFrom stem 0 h components

/-- Modelled from the spec: `u.dot( v )`, the sum over the components of
`u[i] * v[i]`, accumulated from left to right by component index. -/
def dot (u v : Vector) : Scalar :=
  match List.zipWith Scalar.times u v with
  | [] => Scalar.ofValue Double.zero
  | first :: rest => rest.foldl Scalar.plus first

/-- Modelled from the spec: component `i` of the cross product,
`u[(i+1)%3] * v[(i+2)%3] - u[(i+2)%3] * v[(i+1)%3]`. -/
def crossComponent (u v : Vector) (i : Nat) : Scalar :=
  Scalar.minus
    (Scalar.times (u.getD ((i + 1) % 3) Scalar.ofNothing) (v.getD ((i + 2) % 3) Scalar.ofNothing))
    (Scalar.times (u.getD ((i + 2) % 3) Scalar.ofNothing) (v.getD ((i + 1) % 3) Scalar.ofNothing))

/-- Modelled from the spec: `u.cross( v )`, defined for exactly 3 components;
any other arity is a reported usage error. -/
def cross (u v : Vector) : Except UsageError Vector :=
  if u.length = 3 ∧ v.length = 3 then
    Except.ok ((List.range 3).map (crossComponent u v))
  else Except.error UsageError.crossArity

/-! ## Iteration -/

/-- A call of a `const` member function of `Scalar` (every accessor is declared
`const` and the class has no `mutable` member): the result is computed from the
object, which is handed back as it was found. -/
def Scalar.constCall {α : Type} (f : Scalar → α) : StateM Scalar α := do
  let self ← get
  pure (f self)

/-- Modelled from the spec: `Iterator< Scalar >`, declared in a header that is
not among the sources: the scalar iterated over and a position in its map,
given by the entries from that position on. -/
structure Iterator where
  owner : Scalar
  position : List (ParameterPtr × Span)
  deriving DecidableEq

/-- The member `begin()`: the iterator at `parameterMap_.begin()`. -/
def Scalar.begin (s : Scalar) : Iterator :=
  { owner := s, position := s.parameterMap_.entries }

/-- The member `end()`: the iterator at `parameterMap_.end()`. -/
def Scalar.end (s : Scalar) : Iterator :=
  { owner := s, position := [] }

/-- Modelled from the spec: two iterators differ when their positions do. -/
def Iterator.notEqual (a b : Iterator) : Bool :=
  a.position.length != b.position.length

/-- Modelled from the spec: the pair an iterator points to, the parameter and
its derivative segment. -/
def Iterator.deref (it : Iterator) : Option (ParameterPtr × Partial) :=
  it.position.head?.map (fun e => (e.1, segment ( Scalar.partial it.owner) e.2))

/-- Modelled from the spec: the step `++it` to the next entry in map order. -/
def Iterator.next (it : Iterator) : Iterator :=
  { it with position := it.position.tail }

/-- The loop `for ( it = first; it != last; ++it )`, collecting what `*it`
yields; `none` if the loop has not finished after `fuel` steps. -/
def iterate : Nat → Iterator → Iterator → List (ParameterPtr × Partial) →
    Option (List (ParameterPtr × Partial))
  | fuel, it, last, out =>
    if it.notEqual last then
      match fuel with
      | 0 => none
      | fuel + 1 =>
        match it.deref with
        | some pair => iterate fuel it.next last (out ++ [pair])
        | none => none
    else some out

/-- A full traversal of a scalar, from `begin()` to `end()`. -/
def Scalar.traverse (s : Scalar) : Option (List (ParameterPtr × Partial)) :=
  iterate s.size s.begin s.end []

/-! ## Unit-width layouts -/

/-- The spans are `(off, 1)`, `(off + 1, 1)`, ... in this order: every parameter
has width 1 and the spans follow one another without a gap. -/
def unitPackedFrom : Nat → List (ParameterPtr × Span) → Prop
  | _, [] => True
  | off, (_, sp) :: rest => sp = ((off : Int), (1 : Int)) ∧ unitPackedFrom (off + 1) rest

instance decUnitPackedFrom :
    (off : Nat) → (l : List (ParameterPtr × Span)) → Decidable (unitPackedFrom off l)
  | _, [] => isTrue trivial
  | off, (_, sp) :: rest =>
    @instDecidableAnd _ _ (inferInstanceAs (Decidable (sp = ((off : Int), (1 : Int)))))
      (decUnitPackedFrom (off + 1) rest)

/-- A row and a map in which every parameter has width 1, the spans are
consecutive from offset 0 and the row has one entry per parameter. -/
def UnitPacked (row : Partial) (m : ParameterMap) : Prop :=
  unitPackedFrom 0 m.entries ∧ row.length = m.entries.length

instance (row : Partial) (m : ParameterMap) : Decidable (UnitPacked row m) := by
  unfold UnitPacked
  infer_instance

/-- The derivative with respect to a unit-width parameter: the first entry of
its segment, and zero for a parameter that is not tracked. -/
def coef (row : Partial) (m : ParameterMap) (k : ParameterPtr) : Double :=
  match m.find k with
  | some sp => (segment row sp).headD Double.zero
  | none => Double.zero

/-- The span stored under a key in a list of entries: what `std::map::find`
returns on the map holding them. -/
def lookupSpan (l : List (ParameterPtr × Span)) (k : ParameterPtr) : Option Span :=
  (l.find? (fun e => e.1 == k)).map Prod.snd

/-- The row and map of an expression form a unit-width layout. -/
def UnitPackedExpr {Expr : Type} (b : ScalarBase Expr) (e : Expr) : Prop :=
  UnitPacked (b.partialRow e) (b.parameterMap e)

/-- The expression tracks the parameter: it is a key of its parameter map. -/
def tracks {Expr : Type} (b : ScalarBase Expr) (e : Expr) (k : ParameterPtr) : Prop :=
  k ∈ (b.parameterMap e).keys

/-- The derivative of an expression with respect to a unit-width parameter. -/
def coefOf {Expr : Type} (b : ScalarBase Expr) (e : Expr) (k : ParameterPtr) : Double :=
  coef (b.partialRow e) (b.parameterMap e) k

/-! ## Sample objects -/

/-- Two declarations in a row, `Scalar( v1, n1 )` then `Scalar( v2, n2 )`, both
objects alive afterwards: the two scalars and the final heap. The allocator
hands out `a1` for the first parameter and `a2` for the second. -/
def declareTwo (h : Heap) (a1 a2 : Addr) (v1 v2 : Double) (n1 n2 : String) :
    Scalar × Scalar × Heap :=
  let first := Scalar.ofName h a1 v1 n1
  let second := Scalar.ofName first.2 a2 v2 n2
  (first.1, second.1, second.2)

/-- The double `2.0`. -/
def Double.two : Double := ⟨false, 1024, 0⟩

/-- A heap holding two unit-width parameters, at addresses 10 and 20. -/
def sampleHeap : Heap :=
  ⟨[(20, { dim := 1, name := "b" }), (10, { dim := 1, name := "a" })]⟩

/-- A scalar tracking both parameters of `sampleHeap`, one row entry each. -/
def sampleScalar : Scalar :=
  { value_ := Double.two,
    partial_ := [Double.one, Double.neg Double.one],
    parameterMap_ := ParameterMap.ofList [(20, ((1 : Int), (1 : Int))), (10, ((0 : Int), (1 : Int)))] }

/-- The double `0.5`. -/
def Double.half : Double := ⟨false, 1022, 0⟩

/-- The double `3.0`. -/
def Double.three : Double := ⟨false, 1024, ⟨2251799813685248, by decide⟩⟩

/-- The expression type of `a + b` for two scalars, seen through `ScalarBase`. -/
def scalarSum : ScalarBase (ScalarBinaryOp Scalar Scalar AddOp) :=
  ScalarBinaryOp.asExpr Scalar.asExpr Scalar.asExpr AddOp.asOp

/-- The expression type of `a * b` for two scalars, seen through `ScalarBase`. -/
def scalarProduct : ScalarBase (ScalarBinaryOp Scalar Scalar MultiplyOp) :=
  ScalarBinaryOp.asExpr Scalar.asExpr Scalar.asExpr MultiplyOp.asOp

/-- Three declarations in a row, all three objects alive afterwards. -/
def declareThree (h : Heap) (a1 a2 a3 : Addr) (v1 v2 v3 : Double) (n1 n2 n3 : String) :
    Scalar × Scalar × Scalar × Heap :=
  let first := Scalar.ofName h a1 v1 n1
  let second := Scalar.ofName first.2 a2 v2 n2
  let third := Scalar.ofName second.2 a3 v3 n3
  (first.1, second.1, third.1, third.2)

/-- The expression type of `-sin( a + b ) + 0.5 * c` over scalars, seen through
`ScalarBase`; `libmSin` and `libmCos` are the functions of the numeric library. -/
def exampleBase (libmSin libmCos : Double → Double) :
    ScalarBase (ScalarBinaryOp
      (ScalarUnaryOp (ScalarUnaryOp (ScalarBinaryOp Scalar Scalar AddOp) SinOp) NegateOp)
      (ScalarBinaryOp Scalar Scalar MultiplyOp) AddOp) :=
  ScalarBinaryOp.asExpr
    (ScalarUnaryOp.asExpr Double.mul
      (ScalarUnaryOp.asExpr Double.mul scalarSum (SinOp.asOp libmSin libmCos)) NegateOp.asOp)
    scalarProduct AddOp.asOp

/-- The expression `-sin( a + b ) + 0.5 * c` of the example program; the raw
constant `0.5` is the zero-parameter operand `Scalar( 0.5 )`. -/
def exampleExpr (a b c : Scalar) :
    ScalarBinaryOp
      (ScalarUnaryOp (ScalarUnaryOp (ScalarBinaryOp Scalar Scalar AddOp) SinOp) NegateOp)
      (ScalarBinaryOp Scalar Scalar MultiplyOp) AddOp :=
  operatorPlus (operatorMinus (sin (operatorPlus a b)))
    (operatorTimes (Scalar.ofValue Double.half) c)

/-- The declaration `metal::Scalar x = -sin( a + b ) + 0.5 * c` of the example
program: the expression, materialised. -/
def exampleX (libmSin libmCos : Double → Double) (a b c : Scalar) : Scalar :=
  Scalar.ofExpr (exampleBase libmSin libmCos) (exampleExpr a b c)

/-- A stand-in for the cosine of the numeric library, used to instantiate
theorems: the correctly rounded `cos(3.0)` at `3.0`, and `1.0` elsewhere. -/
def sampleCos (x : Double) : Double :=
  if x = Double.three then ⟨true, 1022, ⟨4413460050208210, by decide⟩⟩ else Double.one

/-- A stand-in for the sine of the numeric library, used to instantiate
theorems: the correctly rounded `sin(3.0)` at `3.0`, and `0.0` elsewhere. -/
def sampleSin (x : Double) : Double :=
  if x = Double.three then ⟨false, 1020, ⟨580784498333019, by decide⟩⟩ else Double.zero

/-- The double `-11.0`. -/
def Double.minusEleven : Double := ⟨true, 1026, ⟨1688849860263936, by decide⟩⟩

/-- The vector `s = (1, 2, 3)` of the example program, `create( v, "s" )`, with
the addresses the allocator hands out for its three parameters. -/
def exampleS (h : Heap) (s0 s1 s2 : Addr) : Vector × Heap :=
  create h [(s0, Double.one), (s1, Double.two), (s2, Double.three)] "s"

/-- The vector `r = (-2, 3, -1)` of the example program, `create( u, "r" )`. -/
def exampleR (h : Heap) (r0 r1 r2 : Addr) : Vector × Heap :=
  create h [(r0, Double.neg Double.two), (r1, Double.three), (r2, Double.neg Double.one)] "r"

theorem ofExprLogged_run {Expr : Type} (b : ScalarBase Expr) (e : Expr)
    (log : List Accessor) :
    (Scalar.ofExprLogged b e).run log =
      (({ value_ := b.value e, partial_ := b.partialRow e,
          parameterMap_ := b.parameterMap e } : Scalar),
        log ++ [Accessor.value, Accessor.partialRow, Accessor.parameterMap]) := by
  show (_, ((log ++ [Accessor.value]) ++ [Accessor.partialRow]) ++ [Accessor.parameterMap]) = _
  simp

theorem foldl_push_keys (l : List (ParameterPtr × Span)) :
    ∀ out : ParameterPtrVector,
      l.foldl (fun out entry => out ++ [entry.1]) out = out ++ l.map Prod.fst := by
  induction l with
  | nil => intro out; simp
  | cons e rest ih => intro out; simp [ih]

theorem parameters_eq_keys (s : Scalar) : s.parameters = s.parameterMap_.keys := by
  unfold Scalar.parameters ParameterMap.keys
  rw [foldl_push_keys]
  simp

theorem spansDisjoint_iff (a b : Span) :
    spansDisjoint a b ↔
      ∀ i : Int, ¬ (a.1 ≤ i ∧ i < a.1 + a.2 ∧ b.1 ≤ i ∧ i < b.1 + b.2) := by
  unfold spansDisjoint
  constructor
  · intro hd i hi
    omega
  · intro hall
    by_contra hcon
    have ha := hall a.1
    have hb := hall b.1
    omega

theorem keys_nodup (m : ParameterMap) : m.keys.Nodup := by
  have h := m.ordered
  unfold keysIncreasing at h
  exact h.imp (fun hab => Nat.ne_of_lt hab)

/-! ## Materialisation and construction -/

/-- C1: the Scalar constructed from an expression stores exactly the value, the
derivative row (same length, same entries) and the parameter map (same keys,
same spans) the expression reports, and the construction calls each of the
three accessors of the expression exactly once. -/
theorem materialize_stores_expression {Expr : Type} (b : ScalarBase Expr) (e : Expr) :
    (Scalar.ofExpr b e).value = b.value e ∧
    Scalar.partial (Scalar.ofExpr b e) = b.partialRow e ∧
    ( Scalar.partial (Scalar.ofExpr b e)).length = (b.partialRow e).length ∧
    (Scalar.ofExpr b e).parameterMap = b.parameterMap e ∧
    (Scalar.ofExpr b e).parameterMap.keys = (b.parameterMap e).keys ∧
    (Scalar.ofExpr b e).parameterMap.entries = (b.parameterMap e).entries ∧
    ((Scalar.ofExprLogged b e).run []).2 =
      [Accessor.value, Accessor.partialRow, Accessor.parameterMap] ∧
    (∀ (log : List Accessor) (a : Accessor),
      ((Scalar.ofExprLogged b e).run log).2.count a = log.count a + 1) := by
  refine ⟨rfl, rfl, rfl, rfl, rfl, rfl, rfl, ?_⟩
  intro log a
  rw [ofExprLogged_run]
  cases a <;> simp [List.count_append]

/-- C2: constructing a Scalar from a concrete Scalar, through the copy
constructor or through the expression constructor, yields the same value, the
same derivative row and the same parameter map; hence materialising twice
equals materialising once, field by field. -/
theorem materialize_idempotent {Expr : Type} (b : ScalarBase Expr) (e : Expr) (s : Scalar) :
    (Scalar.ofExpr Scalar.asExpr s = s ∧ Scalar.copy s = s) ∧
    ((Scalar.ofExpr Scalar.asExpr s).value = s.value ∧
      Scalar.partial (Scalar.ofExpr Scalar.asExpr s) = Scalar.partial s ∧
      (Scalar.ofExpr Scalar.asExpr s).parameterMap = s.parameterMap) ∧
    ((Scalar.ofExpr Scalar.asExpr (Scalar.ofExpr b e)).value = (Scalar.ofExpr b e).value ∧
      Scalar.partial (Scalar.ofExpr Scalar.asExpr (Scalar.ofExpr b e)) =
        Scalar.partial (Scalar.ofExpr b e) ∧
      (Scalar.ofExpr Scalar.asExpr (Scalar.ofExpr b e)).parameterMap =
        (Scalar.ofExpr b e).parameterMap ∧
      Scalar.ofExpr Scalar.asExpr (Scalar.ofExpr b e) = Scalar.ofExpr b e) :=
  ⟨⟨rfl, rfl⟩, ⟨rfl, rfl, rfl⟩, ⟨rfl, rfl, rfl, rfl⟩⟩

/-- C3: a scalar declared with value `v` and name `n` has value `v`, a
derivative row of length 1 holding `1.0`, and a parameter map with exactly one
entry, whose key points to a Parameter of width 1 and name `n` and whose span
is (0, 1); so `dim()` is 1, `size()` is 1 and `parameters()` has one element. -/
theorem named_scalar_shape (h : Heap) (addr : Addr) (v : Double) (n : String) :
    (Scalar.ofName h addr v n).1.value = v ∧
    Scalar.partial (Scalar.ofName h addr v n).1 = [Double.one] ∧
    ( Scalar.partial (Scalar.ofName h addr v n).1).length = 1 ∧
    (Scalar.ofName h addr v n).1.parameterMap.entries = [(addr, ((0 : Int), (1 : Int)))] ∧
    (Scalar.ofName h addr v n).2.deref addr = some { dim := 1, name := n } ∧
    (Scalar.ofName h addr v n).1.dim = 1 ∧
    (Scalar.ofName h addr v n).1.size = 1 ∧
    (Scalar.ofName h addr v n).1.parameters = [addr] ∧
    (Scalar.ofName h addr v n).1.parameters.length = 1 := by
  refine ⟨rfl, rfl, rfl, rfl, ?_, rfl, rfl, rfl, rfl⟩
  simp [Scalar.ofName, make_shared, Heap.deref]

/-- C4: a scalar built from a bare number `v` has value `v`, an empty derivative
row and an empty parameter map, so `dim()` is 0, `size()` is 0 and
`parameters()` is empty; built with no argument its value is `0.0`. -/
theorem bare_scalar_tracks_nothing (v : Double) :
    (Scalar.ofValue v).value = v ∧
    Scalar.partial (Scalar.ofValue v) = [] ∧
    (Scalar.ofValue v).parameterMap.entries = [] ∧
    (Scalar.ofValue v).parameterMap = ParameterMap.empty ∧
    (Scalar.ofValue v).dim = 0 ∧
    (Scalar.ofValue v).size = 0 ∧
    (Scalar.ofValue v).parameters = [] ∧
    Scalar.ofNothing.value = Double.zero ∧
    Scalar.ofNothing = Scalar.ofValue Double.zero :=
  ⟨rfl, rfl, rfl, rfl, rfl, rfl, rfl, rfl, rfl⟩

/-- C5: the negate operator maps a value `v` to `-v` (sign bit flipped, exponent
and fraction kept) and its local derivative is `-1.0` for every `v`, the same
constant whatever `v` is. -/
theorem negate_local_rule (op : NegateOp) (v : Double) :
    op.applyToValue v = Double.neg v ∧
    (op.applyToValue v).sign = !v.sign ∧
    (op.applyToValue v).exponent = v.exponent ∧
    (op.applyToValue v).fraction = v.fraction ∧
    NegateOp.partial op v = Double.neg Double.one ∧
    NegateOp.partial op v = { sign := true, exponent := 1023, fraction := 0 } ∧
    (∀ w : Double, NegateOp.partial op w = NegateOp.partial op v) :=
  ⟨rfl, rfl, rfl, rfl, rfl, rfl, fun _ => rfl⟩

/-- C6: for every expression `x`, the expression `-x` has value `-x.value`, a
derivative row of the same length whose entries are `-1.0` times those of `x`,
and the parameter map of `x` unchanged (same entries, same spans). -/
theorem negate_chain_rule {Expr : Type} (mul : Double → Double → Double)
    (b : ScalarBase Expr) (x : Expr) :
    (ScalarUnaryOp.asExpr mul b NegateOp.asOp).value (operatorMinus x) =
      Double.neg (b.value x) ∧
    (ScalarUnaryOp.asExpr mul b NegateOp.asOp).partialRow (operatorMinus x) =
      (b.partialRow x).map (fun d => mul (Double.neg Double.one) d) ∧
    ((ScalarUnaryOp.asExpr mul b NegateOp.asOp).partialRow (operatorMinus x)).length =
      (b.partialRow x).length ∧
    (∀ i : Nat, ((ScalarUnaryOp.asExpr mul b NegateOp.asOp).partialRow (operatorMinus x))[i]? =
      ((b.partialRow x)[i]?).map (fun d => mul (Double.neg Double.one) d)) ∧
    (ScalarUnaryOp.asExpr mul b NegateOp.asOp).parameterMap (operatorMinus x) =
      b.parameterMap x ∧
    ((ScalarUnaryOp.asExpr mul b NegateOp.asOp).parameterMap (operatorMinus x)).entries =
      (b.parameterMap x).entries := by
  refine ⟨rfl, rfl, ?_, ?_, rfl, rfl⟩
  · simp [ScalarUnaryOp.asExpr, ScalarUnaryOp.partial, operatorMinus]
  · intro i
    simp [ScalarUnaryOp.asExpr, ScalarUnaryOp.partial, operatorMinus, NegateOp.asOp,
      NegateOp.partial]

/-- C7: two scalars declared by separate calls with the same name track
distinct parameters (neither's `parameters()` contains the other's parameter,
and as keys of one ParameterMap they make two entries), although both
parameters carry the same name; a Scalar materialised or copied from an
existing Scalar tracks the very same parameters as its source. -/
theorem parameter_identity_by_instance (h : Heap) (a1 a2 : Addr) (v1 v2 : Double)
    (n : String) (s : Scalar) (sp : Span)
    (fresh : a2 ∉ (Scalar.ofName h a1 v1 n).2.live) :
    (declareTwo h a1 a2 v1 v2 n n).1.parameters = [a1] ∧
    (declareTwo h a1 a2 v1 v2 n n).2.1.parameters = [a2] ∧
    a1 ≠ a2 ∧
    (∀ p ∈ (declareTwo h a1 a2 v1 v2 n n).1.parameters,
      p ∉ (declareTwo h a1 a2 v1 v2 n n).2.1.parameters) ∧
    (∀ p ∈ (declareTwo h a1 a2 v1 v2 n n).2.1.parameters,
      p ∉ (declareTwo h a1 a2 v1 v2 n n).1.parameters) ∧
    ((declareTwo h a1 a2 v1 v2 n n).1.parameterMap.insert a2 sp).size = 2 ∧
    (declareTwo h a1 a2 v1 v2 n n).2.2.deref a1 = some { dim := 1, name := n } ∧
    (declareTwo h a1 a2 v1 v2 n n).2.2.deref a2 = some { dim := 1, name := n } ∧
    (Scalar.ofExpr Scalar.asExpr s).parameters = s.parameters ∧
    (Scalar.copy s).parameters = s.parameters ∧
    (Scalar.ofExpr Scalar.asExpr (declareTwo h a1 a2 v1 v2 n n).1).parameters = [a1] := by
  have hne : a2 ≠ a1 := by
    intro e
    apply fresh
    simp [Scalar.ofName, make_shared, Heap.live, e]
  have hne' : a1 ≠ a2 := fun e => hne e.symm
  refine ⟨rfl, rfl, hne', ?_, ?_, ?_, ?_, ?_, rfl, rfl, rfl⟩
  · intro p hp
    have h1 : (declareTwo h a1 a2 v1 v2 n n).1.parameters = [a1] := rfl
    have h2 : (declareTwo h a1 a2 v1 v2 n n).2.1.parameters = [a2] := rfl
    rw [h1] at hp
    rw [h2]
    simp only [List.mem_singleton] at hp ⊢
    rw [hp]
    exact hne'
  · intro p hp
    have h1 : (declareTwo h a1 a2 v1 v2 n n).1.parameters = [a1] := rfl
    have h2 : (declareTwo h a1 a2 v1 v2 n n).2.1.parameters = [a2] := rfl
    rw [h2] at hp
    rw [h1]
    simp only [List.mem_singleton] at hp ⊢
    rw [hp]
    exact hne
  · show (insertEntry a2 sp [(a1, ((0 : Int), (1 : Int)))]).length = 2
    rcases Nat.lt_or_gt_of_ne hne with hlt | hgt
    · simp [insertEntry, hlt]
    · have hnlt : ¬ a2 < a1 := Nat.not_lt.mpr (Nat.le_of_lt hgt)
      simp [insertEntry, hnlt, hgt]
  · simp [declareTwo, Scalar.ofName, make_shared, Heap.deref, hne]
  · simp [declareTwo, Scalar.ofName, make_shared, Heap.deref]

/-- Witness for C7: an empty heap, the allocator handing out 200 then 100. -/
theorem parameter_identity_by_instance_witness :
    (100 : Addr) ∉ (Scalar.ofName Heap.empty 200 Double.one "x").2.live ∧
    (200 : Addr) ≠ 100 ∧
    (declareTwo Heap.empty 200 100 Double.one Double.two "x" "x").1.parameters = [200] ∧
    (declareTwo Heap.empty 200 100 Double.one Double.two "x" "x").2.1.parameters = [100] ∧
    (declareTwo Heap.empty 200 100 Double.one Double.two "x" "x").2.2.deref 200 =
      (declareTwo Heap.empty 200 100 Double.one Double.two "x" "x").2.2.deref 100 :=
  have key := parameter_identity_by_instance Heap.empty 200 100 Double.one Double.two "x"
    sampleScalar ((0 : Int), (1 : Int)) (by decide)
  ⟨by decide, key.2.2.1, key.1, key.2.1, key.2.2.2.2.2.2.1.trans key.2.2.2.2.2.2.2.1.symm⟩

/-! ## The layout invariant -/

/-- C8: a Scalar built by the bare constructor or by the named constructor has
pairwise non-overlapping spans, each span as long as its parameter is wide, and
span lengths adding up to the length of the derivative row; and the Scalar
materialised from an expression satisfies this whenever the expression does. -/
theorem constructors_keep_layout {Expr : Type} (h : Heap) (addr : Addr) (v : Double)
    (n : String) (b : ScalarBase Expr) (e : Expr) :
    (Scalar.ofValue v).wellLaidOut h ∧
    (Scalar.ofName h addr v n).1.wellLaidOut (Scalar.ofName h addr v n).2 ∧
    (layoutInvariant h (b.partialRow e) (b.parameterMap e) →
      (Scalar.ofExpr b e).wellLaidOut h) := by
  refine ⟨?_, ?_, fun hinv => hinv⟩
  · unfold Scalar.wellLaidOut layoutInvariant
    simp [Scalar.ofValue, Scalar.partial, Scalar.parameterMap, ParameterMap.empty]
  · unfold Scalar.wellLaidOut layoutInvariant
    have hm : (Scalar.ofName h addr v n).1.parameterMap.entries =
        [(addr, ((0 : Int), (1 : Int)))] := rfl
    have hp : Scalar.partial (Scalar.ofName h addr v n).1 = [Double.one] := rfl
    rw [hm, hp]
    simp [Scalar.ofName, make_shared, Heap.deref]
    exact ⟨addr, { dim := 1, name := n }, ⟨rfl, rfl⟩, rfl⟩

/-- Witness for C8: the two-parameter `sampleScalar`, read as an expression,
satisfies the invariant on `sampleHeap`, and so does its materialisation. -/
theorem constructors_keep_layout_witness :
    layoutInvariant sampleHeap (Scalar.asExpr.partialRow sampleScalar)
      (Scalar.asExpr.parameterMap sampleScalar) ∧
    (Scalar.ofExpr Scalar.asExpr sampleScalar).wellLaidOut sampleHeap :=
  ⟨by decide,
    (constructors_keep_layout sampleHeap 30 Double.one "c" Scalar.asExpr sampleScalar).2.2
      (by decide)⟩

/-! ## Introspection -/

/-- C9: `parameters()` is exactly the sequence of keys of the parameter map in
the map's (increasing) key order, has no duplicate, and has length `size()`. -/
theorem parameters_in_map_order (s : Scalar) :
    s.parameters = s.parameterMap.keys ∧
    s.parameters = s.parameterMap.entries.map Prod.fst ∧
    s.parameters.Pairwise (fun p q => p < q) ∧
    s.parameters.Nodup ∧
    s.parameters.length = s.size := by
  have hk : s.parameters = s.parameterMap_.keys := parameters_eq_keys s
  refine ⟨hk, hk, ?_, ?_, ?_⟩
  · rw [hk]
    exact s.parameterMap_.ordered
  · rw [hk]
    exact keys_nodup s.parameterMap_
  · rw [hk]
    simp [ParameterMap.keys, Scalar.size, ParameterMap.size]

/-- C10: `dim()` is the length of the derivative row and `size()` the number of
entries of the parameter map, which is the number of distinct parameters
tracked; and for a Scalar satisfying the layout invariant every tracked
parameter is alive and `dim()` is the sum of the widths of the parameters in
`parameters()`. -/
theorem dim_and_size (s : Scalar) (h : Heap) :
    s.dim = ( Scalar.partial s).length ∧
    s.size = s.parameterMap.entries.length ∧
    s.size = s.parameters.toFinset.card ∧
    (s.wellLaidOut h →
      (∀ p ∈ s.parameters, (h.deref p).isSome) ∧
      (s.dim : Int) = (s.parameters.map h.width).sum) := by
  have hk : s.parameters = s.parameterMap_.keys := parameters_eq_keys s
  refine ⟨rfl, rfl, ?_, ?_⟩
  · rw [List.toFinset_card_of_nodup (hk ▸ keys_nodup s.parameterMap_), hk]
    simp [ParameterMap.keys, Scalar.size, ParameterMap.size]
  · intro hinv
    obtain ⟨_, hwidth, hsum⟩ := hinv
    have hw : ∀ e ∈ s.parameterMap_.entries, h.width e.1 = e.2.2 := by
      intro e he
      have := hwidth e he
      unfold Heap.width
      cases hd : h.deref e.1 with
      | none => rw [hd] at this; simp at this
      | some q => rw [hd] at this; simpa using this
    constructor
    · intro p hp
      rw [hk] at hp
      unfold ParameterMap.keys at hp
      obtain ⟨e, he, rfl⟩ := List.mem_map.mp hp
      have := hwidth e he
      cases hd : h.deref e.1 with
      | none => rw [hd] at this; simp at this
      | some q => rfl
    · rw [hk]
      unfold ParameterMap.keys
      rw [List.map_map]
      have hsum' : (s.parameterMap_.entries.map (fun e => e.2.2)).sum =
          ((s.partial_.length : Nat) : Int) := hsum
      have hcongr : s.parameterMap_.entries.map (h.width ∘ Prod.fst) =
          s.parameterMap_.entries.map (fun e => e.2.2) :=
        List.map_congr_left (fun e he => hw e he)
      rw [hcongr, hsum']
      rfl

/-- Witness for C10: `sampleScalar` on `sampleHeap` has `dim()` 2, the sum of
the widths of its two unit-width parameters. -/
theorem dim_and_size_witness :
    sampleScalar.wellLaidOut sampleHeap ∧
    (sampleScalar.dim : Int) = (sampleScalar.parameters.map sampleHeap.width).sum ∧
    sampleScalar.dim = 2 :=
  ⟨by decide, ((dim_and_size sampleScalar sampleHeap).2.2.2 (by decide)).2, rfl⟩

/-! ## Facts about double arithmetic -/

namespace Double

theorem bitLen_le_iff : ∀ (fuel n k : Nat), n ≤ fuel → (bitLen fuel n ≤ k ↔ n < 2 ^ k) := by
  intro fuel
  induction fuel with
  | zero =>
    intro n k hn
    have h0 : n = 0 := by omega
    subst h0
    simp [bitLen, Nat.two_pow_pos]
  | succ fuel ih =>
    intro n k hn
    by_cases h0 : n = 0
    · subst h0
      simp [bitLen, Nat.two_pow_pos]
    · have hhalf : n / 2 ≤ fuel := by omega
      simp only [bitLen, h0, if_false]
      cases k with
      | zero =>
        simp only [Nat.pow_zero]
        omega
      | succ k =>
        have := ih (n / 2) k hhalf
        rw [Nat.pow_succ]
        omega

theorem bitLength_le_iff (n k : Nat) : bitLength n ≤ k ↔ n < 2 ^ k :=
  bitLen_le_iff n n k (Nat.le_refl n)

theorem roundPack_exact (s : Bool) (x : Double) (hx : x.exponent.val < 2047) (k t : Nat)
    (ht : t + k = x.scale + 1074) :
    roundPack s (x.significand * 2 ^ k) t = ⟨s, x.exponent, x.fraction⟩ := by
  obtain ⟨xs, ⟨e, he⟩, ⟨fr, hfr⟩⟩ := x
  simp only [scale, significand] at *
  have hpow : (0 : Nat) < 2 ^ k := Nat.two_pow_pos k
  by_cases h0 : e = 0
  · subst h0
    simp only [if_true] at *
    by_cases hf : fr = 0
    · subst hf
      simp [roundPack, signedZero]
    · have hM : fr * 2 ^ k ≠ 0 := Nat.mul_ne_zero hf (Nat.ne_of_gt hpow)
      have hlt : fr * 2 ^ k < 2 ^ (52 + k) := by
        rw [Nat.pow_add]
        exact Nat.mul_lt_mul_of_pos_right hfr hpow
      have hlen : bitLength (fr * 2 ^ k) ≤ 52 + k := (bitLength_le_iff _ _).2 hlt
      have hbranch : ¬ (bitLength (fr * 2 ^ k) + t ≥ 1127) := by omega
      have hr : 1074 - t = k := by omega
      have hl : t - 1074 = 0 := by omega
      have htie : ¬ (2 * 0 > 2 ^ k ∨ 2 * 0 = 2 ^ k ∧ fr % 2 = 1) := by omega
      unfold roundPack
      simp only [hM, if_false, hbranch, hr, hl, Nat.pow_zero, Nat.mul_one,
        Nat.mul_div_cancel _ hpow, Nat.mul_mod_left, htie, hfr, if_true, pack]
      simp [Nat.mod_eq_of_lt hfr]
  · have hm0 : 4503599627370496 + fr ≠ 0 := by omega
    have hM : (4503599627370496 + fr) * 2 ^ k ≠ 0 := Nat.mul_ne_zero hm0 (Nat.ne_of_gt hpow)
    have hlt : (4503599627370496 + fr) * 2 ^ k < 2 ^ (53 + k) := by
      rw [Nat.pow_add]
      exact Nat.mul_lt_mul_of_pos_right (by omega) hpow
    have hge : ¬ (4503599627370496 + fr) * 2 ^ k < 2 ^ (52 + k) := by
      rw [Nat.pow_add]
      intro hcon
      have := Nat.lt_of_mul_lt_mul_right hcon
      omega
    have hlen1 : bitLength ((4503599627370496 + fr) * 2 ^ k) ≤ 53 + k :=
      (bitLength_le_iff _ _).2 hlt
    have hlen2 : ¬ bitLength ((4503599627370496 + fr) * 2 ^ k) ≤ 52 + k :=
      fun hcon => hge ((bitLength_le_iff _ _).1 hcon)
    simp only [h0, if_false] at ht ⊢
    have hbranch : bitLength ((4503599627370496 + fr) * 2 ^ k) + t ≥ 1127 := by omega
    have hr : bitLength ((4503599627370496 + fr) * 2 ^ k) - 53 = k := by omega
    have hl : 53 - bitLength ((4503599627370496 + fr) * 2 ^ k) = 0 := by omega
    have htie : ¬ (2 * 0 > 2 ^ k ∨ 2 * 0 = 2 ^ k ∧ (4503599627370496 + fr) % 2 = 1) := by omega
    have hq1 : ¬ (4503599627370496 + fr < 4503599627370496) := by omega
    have hq2 : 4503599627370496 + fr < 9007199254740992 := by omega
    have hexp : t + k - 0 - 1073 = e := by omega
    unfold roundPack
    simp only [hM, if_false, hbranch, hr, hl, Nat.pow_zero, Nat.mul_one,
      Nat.mul_div_cancel _ hpow, Nat.mul_mod_left, htie, hq1, hq2, if_true, pack, hexp]
    have hmod : (4503599627370496 + fr) % 4503599627370496 = fr := by omega
    simp [hx, hmod]

theorem flags_of_finite (x : Double) (hx : x.isFinite = true) :
    x.isNaN = false ∧ x.isInf = false ∧ x.exponent.val < 2047 := by
  have h1 : x.exponent.val ≠ 2047 := by simpa [isFinite] using hx
  have h2 := x.exponent.isLt
  refine ⟨by simp [isNaN, h1], by simp [isInf, h1], by omega⟩

theorem mul_one_of_finite (x : Double) (hx : x.isFinite = true) : mul x one = x := by
  obtain ⟨hn, hi, he⟩ := flags_of_finite x hx
  have h := roundPack_exact x.sign x he 52 (x.scale + 1022) (by omega)
  have hone : one.significand = 2 ^ 52 := by decide
  have hsc : one.scale = 1022 := by decide
  have hn1 : one.isNaN = false := by decide
  have hi1 : one.isInf = false := by decide
  have hs1 : one.sign = false := rfl
  unfold mul
  simp only [hn, hi, hn1, hi1, hone, hsc, hs1, Bool.false_or, Bool.false_eq_true, if_false,
    Bool.bne_false]
  exact h

theorem one_mul_of_finite (x : Double) (hx : x.isFinite = true) : mul one x = x := by
  obtain ⟨hn, hi, he⟩ := flags_of_finite x hx
  have h := roundPack_exact x.sign x he 52 (1022 + x.scale) (by omega)
  have hone : one.significand = 2 ^ 52 := by decide
  have hsc : one.scale = 1022 := by decide
  have hn1 : one.isNaN = false := by decide
  have hi1 : one.isInf = false := by decide
  have hs1 : one.sign = false := rfl
  unfold mul
  simp only [hn, hi, hn1, hi1, hone, hsc, hs1, Bool.false_or, Bool.false_eq_true, if_false,
    Bool.false_bne]
  rw [Nat.mul_comm]
  exact h

theorem negone_mul_of_finite (x : Double) (hx : x.isFinite = true) :
    mul (neg one) x = neg x := by
  obtain ⟨hn, hi, he⟩ := flags_of_finite x hx
  have h := roundPack_exact (!x.sign) x he 52 (1022 + x.scale) (by omega)
  have hone : (neg one).significand = 2 ^ 52 := by decide
  have hsc : (neg one).scale = 1022 := by decide
  have hn1 : (neg one).isNaN = false := by decide
  have hi1 : (neg one).isInf = false := by decide
  have hs1 : (neg one).sign = true := rfl
  unfold mul
  simp only [hn, hi, hn1, hi1, hone, hsc, hs1, Bool.false_or, Bool.false_eq_true, if_false,
    Bool.true_bne]
  rw [Nat.mul_comm]
  exact h

theorem mul_zero_of_finite (x : Double) (hx : x.isFinite = true) :
    mul x zero = signedZero x.sign := by
  obtain ⟨hn, hi, _⟩ := flags_of_finite x hx
  have hz : zero.significand = 0 := by decide
  have hn1 : zero.isNaN = false := by decide
  have hi1 : zero.isInf = false := by decide
  have hs1 : zero.sign = false := rfl
  unfold mul
  simp only [hn, hi, hn1, hi1, hz, hs1, Bool.false_or, Bool.false_eq_true, if_false,
    Bool.bne_false, Nat.mul_zero]
  simp [roundPack]

theorem zero_mul_of_finite (x : Double) (hx : x.isFinite = true) :
    mul zero x = signedZero x.sign := by
  obtain ⟨hn, hi, _⟩ := flags_of_finite x hx
  have hz : zero.significand = 0 := by decide
  have hn1 : zero.isNaN = false := by decide
  have hi1 : zero.isInf = false := by decide
  have hs1 : zero.sign = false := rfl
  unfold mul
  simp only [hn, hi, hn1, hi1, hz, hs1, Bool.false_or, Bool.false_eq_true, if_false,
    Bool.false_bne, Nat.zero_mul]
  simp [roundPack]

theorem add_signedZero_of_finite (x : Double) (hx : x.isFinite = true)
    (hnz : x.isZero = false) (b : Bool) : add x (signedZero b) = x := by
  obtain ⟨hn, hi, he⟩ := flags_of_finite x hx
  have hz : (signedZero b).significand = 0 := by cases b <;> decide
  have hsc : (signedZero b).scale = 0 := by cases b <;> decide
  have hn1 : (signedZero b).isNaN = false := by cases b <;> decide
  have hi1 : (signedZero b).isInf = false := by cases b <;> decide
  have hs1 : (signedZero b).sign = b := rfl
  have hm : x.significand ≠ 0 := by
    obtain ⟨xs, ⟨e, he'⟩, ⟨fr, hfr⟩⟩ := x
    simp only [isZero, significand] at *
    by_cases h0 : e = 0
    · simp [h0] at hnz ⊢
      exact hnz
    · simp [h0]
  have hpos : 0 < x.significand * 2 ^ x.scale :=
    Nat.mul_pos (Nat.pos_of_ne_zero hm) (Nat.two_pow_pos _)
  have h := roundPack_exact x.sign x he x.scale 1074 (by omega)
  unfold add
  simp only [hn, hi, hn1, hi1, hz, hsc, hs1, Bool.false_eq_true, if_false, Nat.min_zero,
    Nat.sub_zero, Nat.zero_mul, Nat.add_zero, Nat.zero_add, hpos, if_true, ite_self]
  exact h

theorem signedZero_add_of_finite (x : Double) (hx : x.isFinite = true)
    (hnz : x.isZero = false) (b : Bool) : add (signedZero b) x = x := by
  obtain ⟨hn, hi, he⟩ := flags_of_finite x hx
  have hz : (signedZero b).significand = 0 := by cases b <;> decide
  have hsc : (signedZero b).scale = 0 := by cases b <;> decide
  have hn1 : (signedZero b).isNaN = false := by cases b <;> decide
  have hi1 : (signedZero b).isInf = false := by cases b <;> decide
  have hs1 : (signedZero b).sign = b := rfl
  have hm : x.significand ≠ 0 := by
    obtain ⟨xs, ⟨e, he'⟩, ⟨fr, hfr⟩⟩ := x
    simp only [isZero, significand] at *
    by_cases h0 : e = 0
    · simp [h0] at hnz ⊢
      exact hnz
    · simp [h0]
  have hpos : 0 < x.significand * 2 ^ x.scale :=
    Nat.mul_pos (Nat.pos_of_ne_zero hm) (Nat.two_pow_pos _)
  have hnlt : ¬ x.significand * 2 ^ x.scale < 0 := Nat.not_lt_zero _
  have h := roundPack_exact x.sign x he x.scale 1074 (by omega)
  unfold add
  simp only [hn, hi, hn1, hi1, hz, hsc, hs1, Bool.false_eq_true, if_false, Nat.zero_min,
    Nat.sub_zero, Nat.zero_mul, Nat.add_zero, Nat.zero_add, hpos, hnlt, if_true]
  by_cases hb : b = x.sign
  · simp only [hb, if_true]
    exact h
  · simp only [hb, if_false]
    exact h

theorem add_signedZero_signedZero (a b : Bool) :
    (add (signedZero a) (signedZero b)).isZero = true := by
  cases a <;> cases b <;> decide!

/-- The arithmetic on known data: `0.1 + 0.2` is `0.30000000000000004`; the
halfway case `1 + 2^-53` rounds to the even neighbour `1`, while
`(1 + 2^-52) + 2^-53` rounds up to `1 + 2^-51`; the largest finite double
doubled overflows to infinity; half the smallest subnormal rounds to zero and
three halves of it to twice it; `0.1 * 0.1` is `0.010000000000000002`;
`-0.0 + 0.0` is `+0.0`; `1.0 - 1.0` is `+0.0`; `-1.0` times the signalling NaN
`0x7FF0000000000001` is the quiet NaN `0x7FF8000000000001`; `1.0` minus the
quiet NaN `0x7FF8000000000000` is that NaN with its sign; and infinity times
zero is the default NaN `0xFFF8000000000000`. -/
theorem arithmetic_samples :
    add (ofBits 0x3FB999999999999A) (ofBits 0x3FC999999999999A) = ofBits 0x3FD3333333333334 ∧
    add one (ofBits 0x3CA0000000000000) = one ∧
    add (ofBits 0x3FF0000000000001) (ofBits 0x3CA0000000000000) = ofBits 0x3FF0000000000002 ∧
    mul (ofBits 0x7FEFFFFFFFFFFFFF) (ofBits 0x4000000000000000) = infinity false ∧
    mul (ofBits 1) (ofBits 0x3FE0000000000000) = zero ∧
    mul (ofBits 3) (ofBits 0x3FE0000000000000) = ofBits 2 ∧
    mul (ofBits 0x3FB999999999999A) (ofBits 0x3FB999999999999A) = ofBits 0x3F847AE147AE147C ∧
    add (neg zero) zero = zero ∧
    sub one one = zero ∧
    mul (neg one) (ofBits 0x7FF0000000000001) = ofBits 0x7FF8000000000001 ∧
    sub one (ofBits 0x7FF8000000000000) = ofBits 0x7FF8000000000000 ∧
    mul (infinity false) zero = ofBits 0xFFF8000000000000 := by
  refine ⟨?_, ?_, ?_, ?_, ?_, ?_, ?_, ?_, ?_, ?_, ?_, ?_⟩ <;> decide!

end Double

/-! ## Facts about lookup, segments and merging -/

theorem find_eq_lookupSpan (m : ParameterMap) (k : ParameterPtr) :
    m.find k = lookupSpan m.entries k := rfl

theorem lookupSpan_cons (e : ParameterPtr × Span) (l : List (ParameterPtr × Span))
    (k : ParameterPtr) :
    lookupSpan (e :: l) k = if e.1 = k then some e.2 else lookupSpan l k := by
  unfold lookupSpan
  by_cases h : e.1 = k
  · simp [List.find?_cons, h]
  · simp [List.find?_cons, h]

theorem lookupSpan_eq_none_iff (l : List (ParameterPtr × Span)) (k : ParameterPtr) :
    lookupSpan l k = none ↔ k ∉ l.map Prod.fst := by
  induction l with
  | nil => simp [lookupSpan]
  | cons e rest ih =>
    rw [lookupSpan_cons]
    by_cases h : e.1 = k
    · simp [h]
    · simp only [h, if_false, ih, List.map_cons, List.mem_cons]
      constructor
      · intro hk hor
        rcases hor with hor | hor
        · exact h hor.symm
        · exact hk hor
      · intro hk hmem
        exact hk (Or.inr hmem)

theorem lookupSpan_mem (l : List (ParameterPtr × Span)) (k : ParameterPtr) (sp : Span)
    (h : lookupSpan l k = some sp) : (k, sp) ∈ l := by
  induction l with
  | nil => simp [lookupSpan] at h
  | cons e rest ih =>
    rw [lookupSpan_cons] at h
    by_cases hk : e.1 = k
    · simp only [hk, if_true, Option.some.injEq] at h
      obtain ⟨k0, sp0⟩ := e
      simp only at hk h
      subst hk
      subst h
      exact List.mem_cons_self _ _
    · simp only [hk, if_false] at h
      exact List.mem_cons_of_mem _ (ih h)

theorem segment_map (f : Double → Double) (row : Partial) (sp : Span) :
    segment (row.map f) sp = (segment row sp).map f := by
  unfold segment
  rw [List.map_take, List.map_drop]

theorem segment_after_prefix (pre r : Partial) (d : Double) (off : Nat)
    (hpre : pre.length = off) :
    segment (pre ++ d :: r) ((off : Int), (1 : Int)) = [d] := by
  unfold segment
  subst hpre
  simp

theorem segment_of_lookup :
    ∀ (entries : List (ParameterPtr × Span)) (off : Nat) (pre r : Partial),
      unitPackedFrom off entries → pre.length = off → r.length = entries.length →
      ∀ (k : ParameterPtr) (sp : Span), lookupSpan entries k = some sp →
        ∃ d, segment (pre ++ r) sp = [d] := by
  intro entries
  induction entries with
  | nil =>
    intro off pre r _ _ _ k sp h
    simp [lookupSpan] at h
  | cons e rest ih =>
    intro off pre r hp hpre hlen k sp h
    obtain ⟨k0, sp0⟩ := e
    cases r with
    | nil => simp at hlen
    | cons d r' =>
      obtain ⟨hsp0, hrest⟩ := hp
      rw [lookupSpan_cons] at h
      by_cases hk : k0 = k
      · simp only [hk, if_true, Option.some.injEq] at h
        subst h
        rw [hsp0]
        exact ⟨d, segment_after_prefix pre r' d off hpre⟩
      · simp only [hk, if_false] at h
        have hlen' : r'.length = rest.length := by simpa using hlen
        have hpre' : (pre ++ [d]).length = off + 1 := by simp [hpre]
        have := ih (off + 1) (pre ++ [d]) r' hrest hpre' hlen' k sp h
        simpa using this

theorem segment_of_lookup_map (G : ParameterPtr → Double) :
    ∀ (entries : List (ParameterPtr × Span)) (off : Nat) (pre : Partial),
      unitPackedFrom off entries → pre.length = off →
      ∀ (k : ParameterPtr) (sp : Span), lookupSpan entries k = some sp →
        segment (pre ++ entries.map (fun e => G e.1)) sp = [G k] := by
  intro entries
  induction entries with
  | nil =>
    intro off pre _ _ k sp h
    simp [lookupSpan] at h
  | cons e rest ih =>
    intro off pre hp hpre k sp h
    obtain ⟨k0, sp0⟩ := e
    obtain ⟨hsp0, hrest⟩ := hp
    rw [lookupSpan_cons] at h
    by_cases hk : k0 = k
    · simp only [hk, if_true, Option.some.injEq] at h
      subst h
      rw [hsp0]
      simp only [List.map_cons]
      rw [hk]
      exact segment_after_prefix pre _ (G k) off hpre
    · simp only [hk, if_false] at h
      have hpre' : (pre ++ [G k0]).length = off + 1 := by simp [hpre]
      have := ih (off + 1) (pre ++ [G k0]) hrest hpre' k sp h
      simpa using this

theorem coef_segment (row : Partial) (m : ParameterMap) (hp : UnitPacked row m)
    (k : ParameterPtr) (sp : Span) (h : m.find k = some sp) :
    segment row sp = [coef row m k] := by
  obtain ⟨d, hd⟩ := segment_of_lookup m.entries 0 [] row hp.1 rfl hp.2 k sp h
  have hd' : segment row sp = [d] := by simpa using hd
  unfold coef
  rw [h]
  simp [hd']

theorem coef_of_not_tracked (row : Partial) (m : ParameterMap) (k : ParameterPtr)
    (h : m.find k = none) : coef row m k = Double.zero := by
  unfold coef
  rw [h]

theorem mem_insertEntry (k : ParameterPtr) (v : Span) (e : ParameterPtr × Span) :
    ∀ l : List (ParameterPtr × Span), e ∈ insertEntry k v l → e = (k, v) ∨ e ∈ l
  | [] => by
    intro he
    simpa [insertEntry] using he
  | (k', v') :: rest => by
    intro he
    unfold insertEntry at he
    split_ifs at he with h1 h2
    · simpa using he
    · simp only [List.mem_cons] at he ⊢
      rcases he with he | he
      · exact Or.inr (Or.inl he)
      · rcases mem_insertEntry k v e rest he with h | h
        · exact Or.inl h
        · exact Or.inr (Or.inr h)
    · exact Or.inr he

theorem mem_keys_insertEntry_iff (k : ParameterPtr) (v : Span) (x : ParameterPtr) :
    ∀ l : List (ParameterPtr × Span),
      x ∈ (insertEntry k v l).map Prod.fst ↔ x = k ∨ x ∈ l.map Prod.fst
  | [] => by simp [insertEntry]
  | (k', v') :: rest => by
    constructor
    · exact mem_keys_insertEntry k v x ((k', v') :: rest)
    · intro hx
      unfold insertEntry
      split_ifs with h1 h2
      · simpa using hx
      · simp only [List.map_cons, List.mem_cons] at hx ⊢
        rcases hx with hx | hx | hx
        · exact Or.inr ((mem_keys_insertEntry_iff k v x rest).2 (Or.inl hx))
        · exact Or.inl hx
        · exact Or.inr ((mem_keys_insertEntry_iff k v x rest).2 (Or.inr hx))
      · have hkk : k = k' := Nat.le_antisymm (Nat.not_lt.mp h2) (Nat.not_lt.mp h1)
        simp only [List.map_cons, List.mem_cons] at hx ⊢
        rcases hx with hx | hx | hx
        · exact Or.inl (hx.trans hkk)
        · exact Or.inl hx
        · exact Or.inr hx

theorem length_insertEntry_of_not_mem (k : ParameterPtr) (v : Span) :
    ∀ l : List (ParameterPtr × Span), k ∉ l.map Prod.fst →
      (insertEntry k v l).length = l.length + 1
  | [] => by
    intro _
    simp [insertEntry]
  | (k', v') :: rest => by
    intro hk
    simp only [List.map_cons, List.mem_cons, not_or] at hk
    unfold insertEntry
    split_ifs with h1 h2
    · simp
    · simp [length_insertEntry_of_not_mem k v rest hk.2]
    · exact absurd (Nat.le_antisymm (Nat.not_lt.mp h2) (Nat.not_lt.mp h1)) hk.1

theorem mem_unionEntries (e : ParameterPtr × Span) (b : List (ParameterPtr × Span)) :
    ∀ a : List (ParameterPtr × Span), e ∈ unionEntries a b → e ∈ a ∨ e ∈ b := by
  induction b with
  | nil =>
    intro a he
    exact Or.inl he
  | cons x rest ih =>
    intro a he
    rcases ih (insertEntry x.1 x.2 a) he with h | h
    · rcases mem_insertEntry x.1 x.2 e a h with h' | h'
      · exact Or.inr (by rw [h']; exact List.mem_cons_self _ _)
      · exact Or.inl h'
    · exact Or.inr (List.mem_cons_of_mem _ h)

theorem mem_keys_unionEntries_iff (x : ParameterPtr) (b : List (ParameterPtr × Span)) :
    ∀ a : List (ParameterPtr × Span),
      x ∈ (unionEntries a b).map Prod.fst ↔ x ∈ a.map Prod.fst ∨ x ∈ b.map Prod.fst := by
  induction b with
  | nil =>
    intro a
    simp [unionEntries]
  | cons e rest ih =>
    intro a
    have h := ih (insertEntry e.1 e.2 a)
    have h' : unionEntries a (e :: rest) = unionEntries (insertEntry e.1 e.2 a) rest := rfl
    rw [h', h, mem_keys_insertEntry_iff]
    simp only [List.map_cons, List.mem_cons]
    constructor
    · rintro ((h1 | h1) | h1)
      · exact Or.inr (Or.inl h1)
      · exact Or.inl h1
      · exact Or.inr (Or.inr h1)
    · rintro (h1 | h1 | h1)
      · exact Or.inl (Or.inr h1)
      · exact Or.inl (Or.inl h1)
      · exact Or.inr h1

theorem length_assignOffsets (l : List (ParameterPtr × Span)) :
    ∀ off : Int, (assignOffsets off l).length = l.length := by
  induction l with
  | nil => intro off; rfl
  | cons e rest ih =>
    intro off
    obtain ⟨k, sp⟩ := e
    simp [assignOffsets, ih]

theorem unitPackedFrom_assignOffsets (l : List (ParameterPtr × Span)) :
    ∀ off : Nat, (∀ e ∈ l, e.2.2 = 1) → unitPackedFrom off (assignOffsets (off : Int) l) := by
  induction l with
  | nil =>
    intro off _
    trivial
  | cons e rest ih =>
    intro off hunit
    obtain ⟨k, sp⟩ := e
    have h1 : sp.2 = 1 := hunit (k, sp) (List.mem_cons_self _ _)
    have hrest : ∀ e ∈ rest, e.2.2 = 1 := fun e he => hunit e (List.mem_cons_of_mem _ he)
    have ih' := ih (off + 1) hrest
    have hcast : ((off : Int) + 1) = ((off + 1 : Nat) : Int) := by push_cast; rfl
    show (((off : Int), sp.2) = ((off : Int), (1 : Int))) ∧
      unitPackedFrom (off + 1) (assignOffsets ((off : Int) + sp.2) rest)
    rw [h1, hcast]
    exact ⟨rfl, ih'⟩

theorem unit_of_unitPackedFrom (l : List (ParameterPtr × Span)) :
    ∀ off : Nat, unitPackedFrom off l → ∀ e ∈ l, e.2.2 = 1 := by
  induction l with
  | nil =>
    intro off _ e he
    simp at he
  | cons x rest ih =>
    intro off hp e he
    obtain ⟨k, sp⟩ := x
    obtain ⟨hsp, hrest⟩ := hp
    rcases List.mem_cons.mp he with h | h
    · rw [h, hsp]
    · exact ih (off + 1) hrest e h

theorem lookupSpan_assignOffsets_isSome (l : List (ParameterPtr × Span)) (k : ParameterPtr) :
    ∀ off : Int, (lookupSpan (assignOffsets off l) k).isSome = (lookupSpan l k).isSome := by
  induction l with
  | nil => intro off; rfl
  | cons e rest ih =>
    intro off
    obtain ⟨k0, sp⟩ := e
    simp only [assignOffsets, lookupSpan_cons]
    by_cases h : k0 = k
    · simp [h]
    · simp [h, ih]

theorem relaid_unit (row : Partial) (m : ParameterMap) (hp : UnitPacked row m) :
    ∀ entries : List (ParameterPtr × Span), (∀ e ∈ entries, e.2.2 = 1) →
      relaid row entries (entries.map (fun e => m.find e.1)) =
        entries.map (fun e => coef row m e.1) := by
  intro entries
  induction entries with
  | nil =>
    intro _
    rfl
  | cons e rest ih =>
    intro hunit
    have h1 : e.2.2 = 1 := hunit e (List.mem_cons_self _ _)
    have hrest : ∀ e ∈ rest, e.2.2 = 1 := fun x hx => hunit x (List.mem_cons_of_mem _ hx)
    simp only [List.map_cons]
    cases hfind : m.find e.1 with
    | none =>
      simp only [relaid, h1, ih hrest, coef_of_not_tracked row m e.1 hfind]
      rfl
    | some src =>
      simp only [relaid, ih hrest, coef_segment row m hp e.1 src hfind]
      rfl

/-! ## Facts about unit-width expressions -/

theorem zipWith_map_same {α : Type} (g : Double → Double → Double) (f1 f2 : α → Double) :
    ∀ l : List α, List.zipWith g (l.map f1) (l.map f2) = l.map (fun e => g (f1 e) (f2 e)) := by
  intro l
  induction l with
  | nil => rfl
  | cons e rest ih => simp [ih]

theorem find_isSome_iff_tracks {Expr : Type} (b : ScalarBase Expr) (e : Expr)
    (k : ParameterPtr) : tracks b e k ↔ ∃ sp, (b.parameterMap e).find k = some sp := by
  unfold tracks ParameterMap.keys
  rw [find_eq_lookupSpan]
  constructor
  · intro hk
    cases h : lookupSpan (b.parameterMap e).entries k with
    | none => exact absurd hk ((lookupSpan_eq_none_iff _ k).1 h)
    | some sp => exact ⟨sp, rfl⟩
  · rintro ⟨sp, hsp⟩
    by_contra hk
    rw [(lookupSpan_eq_none_iff _ k).2 hk] at hsp
    exact Option.noConfusion hsp

theorem at_of_tracked {Expr : Type} (b : ScalarBase Expr) (e : Expr) (k : ParameterPtr)
    (hp : UnitPackedExpr b e) (hk : tracks b e k) :
    b.at e k = Except.ok [coefOf b e k] := by
  obtain ⟨sp, hsp⟩ := (find_isSome_iff_tracks b e k).1 hk
  unfold ScalarBase.at
  rw [hsp]
  simp only []
  rw [coef_segment (b.partialRow e) (b.parameterMap e) hp k sp hsp]
  rfl

theorem at_of_not_tracked {Expr : Type} (b : ScalarBase Expr) (e : Expr) (k : ParameterPtr)
    (hk : ¬ tracks b e k) :
    b.at e k = Except.error UsageError.untrackedParameter := by
  have hnone : (b.parameterMap e).find k = none := by
    cases h : (b.parameterMap e).find k with
    | none => rfl
    | some sp => exact absurd ((find_isSome_iff_tracks b e k).2 ⟨sp, h⟩) hk
  unfold ScalarBase.at
  rw [hnone]

theorem coefOf_of_not_tracked {Expr : Type} (b : ScalarBase Expr) (e : Expr)
    (k : ParameterPtr) (hk : ¬ tracks b e k) : coefOf b e k = Double.zero := by
  have hnone : (b.parameterMap e).find k = none := by
    cases h : (b.parameterMap e).find k with
    | none => rfl
    | some sp => exact absurd ((find_isSome_iff_tracks b e k).2 ⟨sp, h⟩) hk
  exact coef_of_not_tracked _ _ k hnone

theorem dim_of_unitPacked {Expr : Type} (b : ScalarBase Expr) (e : Expr)
    (hp : UnitPackedExpr b e) : b.dim e = (b.parameterMap e).keys.length := by
  unfold ScalarBase.dim ParameterMap.keys
  rw [hp.2, List.length_map]

theorem binary_entries {Left Right Op : Type} (bl : ScalarBase Left) (br : ScalarBase Right)
    (o : BinaryOp Op) (y : ScalarBinaryOp Left Right Op) :
    ((ScalarBinaryOp.asExpr bl br o).parameterMap y).entries =
      assignOffsets 0 (unionEntries (bl.parameterMap y.lhs).entries
        (br.parameterMap y.rhs).entries) := rfl

theorem binary_tracks {Left Right Op : Type} (bl : ScalarBase Left) (br : ScalarBase Right)
    (o : BinaryOp Op) (y : ScalarBinaryOp Left Right Op) (k : ParameterPtr) :
    tracks (ScalarBinaryOp.asExpr bl br o) y k ↔ tracks bl y.lhs k ∨ tracks br y.rhs k := by
  unfold tracks ParameterMap.keys
  rw [binary_entries, keys_assignOffsets, mem_keys_unionEntries_iff]

theorem binary_units {Left Right Op : Type} (bl : ScalarBase Left) (br : ScalarBase Right)
    (y : ScalarBinaryOp Left Right Op)
    (hl : UnitPackedExpr bl y.lhs) (hr : UnitPackedExpr br y.rhs) :
    ∀ e ∈ unionEntries (bl.parameterMap y.lhs).entries (br.parameterMap y.rhs).entries,
      e.2.2 = 1 := by
  intro e he
  rcases mem_unionEntries e _ _ he with h | h
  · exact unit_of_unitPackedFrom _ 0 hl.1 e h
  · exact unit_of_unitPackedFrom _ 0 hr.1 e h

theorem binary_row {Left Right Op : Type} (bl : ScalarBase Left) (br : ScalarBase Right)
    (o : BinaryOp Op) (y : ScalarBinaryOp Left Right Op)
    (hl : UnitPackedExpr bl y.lhs) (hr : UnitPackedExpr br y.rhs) :
    (ScalarBinaryOp.asExpr bl br o).partialRow y =
      ((ScalarBinaryOp.asExpr bl br o).parameterMap y).entries.map (fun e =>
        Double.add
          (Double.mul (o.da y.op (bl.value y.lhs) (br.value y.rhs)) (coefOf bl y.lhs e.1))
          (Double.mul (o.db y.op (bl.value y.lhs) (br.value y.rhs)) (coefOf br y.rhs e.1))) := by
  have hunit : ∀ e ∈ ((ScalarBinaryOp.asExpr bl br o).parameterMap y).entries, e.2.2 = 1 := by
    rw [binary_entries]
    exact unit_of_unitPackedFrom _ 0
      (unitPackedFrom_assignOffsets _ 0 (binary_units bl br y hl hr))
  have ha := relaid_unit (bl.partialRow y.lhs) (bl.parameterMap y.lhs) hl _ hunit
  have hb := relaid_unit (br.partialRow y.rhs) (br.parameterMap y.rhs) hr _ hunit
  show List.zipWith _
      (relaid (bl.partialRow y.lhs) ((ScalarBinaryOp.asExpr bl br o).parameterMap y).entries
        (((ScalarBinaryOp.asExpr bl br o).parameterMap y).entries.map
          (fun e => (bl.parameterMap y.lhs).find e.1)))
      (relaid (br.partialRow y.rhs) ((ScalarBinaryOp.asExpr bl br o).parameterMap y).entries
        (((ScalarBinaryOp.asExpr bl br o).parameterMap y).entries.map
          (fun e => (br.parameterMap y.rhs).find e.1))) = _
  rw [ha, hb, zipWith_map_same]
  rfl

theorem binary_unitPacked {Left Right Op : Type} (bl : ScalarBase Left) (br : ScalarBase Right)
    (o : BinaryOp Op) (y : ScalarBinaryOp Left Right Op)
    (hl : UnitPackedExpr bl y.lhs) (hr : UnitPackedExpr br y.rhs) :
    UnitPackedExpr (ScalarBinaryOp.asExpr bl br o) y := by
  unfold UnitPackedExpr UnitPacked
  constructor
  · rw [binary_entries]
    exact unitPackedFrom_assignOffsets _ 0 (binary_units bl br y hl hr)
  · rw [binary_row bl br o y hl hr, List.length_map]

theorem binary_coef {Left Right Op : Type} (bl : ScalarBase Left) (br : ScalarBase Right)
    (o : BinaryOp Op) (y : ScalarBinaryOp Left Right Op)
    (hl : UnitPackedExpr bl y.lhs) (hr : UnitPackedExpr br y.rhs) (k : ParameterPtr)
    (hk : tracks (ScalarBinaryOp.asExpr bl br o) y k) :
    coefOf (ScalarBinaryOp.asExpr bl br o) y k =
      Double.add
        (Double.mul (o.da y.op (bl.value y.lhs) (br.value y.rhs)) (coefOf bl y.lhs k))
        (Double.mul (o.db y.op (bl.value y.lhs) (br.value y.rhs)) (coefOf br y.rhs k)) := by
  obtain ⟨sp, hsp⟩ := (find_isSome_iff_tracks _ y k).1 hk
  have hpk := (binary_unitPacked bl br o y hl hr).1
  have hseg := segment_of_lookup_map
    (fun k => Double.add
        (Double.mul (o.da y.op (bl.value y.lhs) (br.value y.rhs)) (coefOf bl y.lhs k))
        (Double.mul (o.db y.op (bl.value y.lhs) (br.value y.rhs)) (coefOf br y.rhs k)))
    ((ScalarBinaryOp.asExpr bl br o).parameterMap y).entries 0 [] hpk rfl k sp hsp
  unfold coefOf coef
  rw [hsp]
  simp only []
  rw [binary_row bl br o y hl hr]
  simp only [List.nil_append] at hseg
  rw [hseg]
  rfl

theorem unary_tracks {Expr Op : Type} (b : ScalarBase Expr) (o : UnaryOp Op)
    (y : ScalarUnaryOp Expr Op) (k : ParameterPtr) :
    tracks (ScalarUnaryOp.asExpr Double.mul b o) y k ↔ tracks b y.expr k := Iff.rfl

theorem unary_unitPacked {Expr Op : Type} (b : ScalarBase Expr) (o : UnaryOp Op)
    (y : ScalarUnaryOp Expr Op) (hp : UnitPackedExpr b y.expr) :
    UnitPackedExpr (ScalarUnaryOp.asExpr Double.mul b o) y := by
  refine ⟨hp.1, ?_⟩
  show ((b.partialRow y.expr).map _).length = _
  rw [List.length_map]
  exact hp.2

theorem unary_coef {Expr Op : Type} (b : ScalarBase Expr) (o : UnaryOp Op)
    (y : ScalarUnaryOp Expr Op) (hp : UnitPackedExpr b y.expr) (k : ParameterPtr)
    (hk : tracks b y.expr k) :
    coefOf (ScalarUnaryOp.asExpr Double.mul b o) y k =
      Double.mul (o.partialAt y.op (b.value y.expr)) (coefOf b y.expr k) := by
  obtain ⟨sp, hsp⟩ := (find_isSome_iff_tracks b y.expr k).1 hk
  have hseg := coef_segment (b.partialRow y.expr) (b.parameterMap y.expr) hp k sp hsp
  have hfind : ((ScalarUnaryOp.asExpr Double.mul b o).parameterMap y).find k = some sp := hsp
  unfold coefOf
  show coef ((b.partialRow y.expr).map _) _ k = _
  unfold coef
  rw [hfind]
  simp only []
  rw [segment_map, hseg]
  rfl

theorem materialize_unitPacked {Expr : Type} (b : ScalarBase Expr) (e : Expr) :
    UnitPackedExpr Scalar.asExpr (Scalar.ofExpr b e) ↔ UnitPackedExpr b e := Iff.rfl

theorem materialize_tracks {Expr : Type} (b : ScalarBase Expr) (e : Expr) (k : ParameterPtr) :
    tracks Scalar.asExpr (Scalar.ofExpr b e) k ↔ tracks b e k := Iff.rfl

theorem materialize_coef {Expr : Type} (b : ScalarBase Expr) (e : Expr) (k : ParameterPtr) :
    coefOf Scalar.asExpr (Scalar.ofExpr b e) k = coefOf b e k := rfl

theorem materialize_at {Expr : Type} (b : ScalarBase Expr) (e : Expr) (k : ParameterPtr) :
    Scalar.asExpr.at (Scalar.ofExpr b e) k = b.at e k := rfl

theorem named_unitPacked (h : Heap) (addr : Addr) (v : Double) (n : String) :
    UnitPackedExpr Scalar.asExpr (Scalar.ofName h addr v n).1 := by
  refine ⟨?_, rfl⟩
  show unitPackedFrom 0 [(addr, ((0 : Int), (1 : Int)))]
  exact ⟨rfl, trivial⟩

theorem named_tracks (h : Heap) (addr : Addr) (v : Double) (n : String) (k : ParameterPtr) :
    tracks Scalar.asExpr (Scalar.ofName h addr v n).1 k ↔ k = addr := by
  show k ∈ [addr] ↔ k = addr
  simp

theorem named_coef (h : Heap) (addr : Addr) (v : Double) (n : String) :
    coefOf Scalar.asExpr (Scalar.ofName h addr v n).1 addr = Double.one := by
  show coef [Double.one] _ addr = Double.one
  unfold coef
  have hfind : (Scalar.asExpr.parameterMap (Scalar.ofName h addr v n).1).find addr =
      some ((0 : Int), (1 : Int)) := by
    show lookupSpan [(addr, ((0 : Int), (1 : Int)))] addr = _
    simp [lookupSpan]
  rw [hfind]
  rfl

theorem bare_unitPacked (v : Double) : UnitPackedExpr Scalar.asExpr (Scalar.ofValue v) :=
  ⟨trivial, rfl⟩

theorem bare_tracks (v : Double) (k : ParameterPtr) :
    ¬ tracks Scalar.asExpr (Scalar.ofValue v) k := by
  show ¬ k ∈ ([] : List ParameterPtr)
  simp

theorem length_of_mem_iff (l r : List ParameterPtr) (hl : l.Nodup) (hr : r.Nodup)
    (h : ∀ k, k ∈ l ↔ k ∈ r) : l.length = r.length :=
  ((List.perm_ext_iff_of_nodup hl hr).2 h).length_eq

theorem two_named {Op : Type} (o : BinaryOp Op) (op : Op) (h h' : Heap) (a1 a2 : Addr)
    (v1 v2 : Double) (n1 n2 : String) (hne : a1 ≠ a2) :
    (ScalarBinaryOp.asExpr Scalar.asExpr Scalar.asExpr o).at
        { lhs := (Scalar.ofName h a1 v1 n1).1, rhs := (Scalar.ofName h' a2 v2 n2).1, op := op }
        a1 =
      Except.ok [Double.add (Double.mul (o.da op v1 v2) Double.one)
        (Double.mul (o.db op v1 v2) Double.zero)] ∧
    (ScalarBinaryOp.asExpr Scalar.asExpr Scalar.asExpr o).at
        { lhs := (Scalar.ofName h a1 v1 n1).1, rhs := (Scalar.ofName h' a2 v2 n2).1, op := op }
        a2 =
      Except.ok [Double.add (Double.mul (o.da op v1 v2) Double.zero)
        (Double.mul (o.db op v1 v2) Double.one)] ∧
    (ScalarBinaryOp.asExpr Scalar.asExpr Scalar.asExpr o).dim
        { lhs := (Scalar.ofName h a1 v1 n1).1, rhs := (Scalar.ofName h' a2 v2 n2).1, op := op }
      = 2 := by
  have hpa := named_unitPacked h a1 v1 n1
  have hpb := named_unitPacked h' a2 v2 n2
  have hp := binary_unitPacked Scalar.asExpr Scalar.asExpr o
    { lhs := (Scalar.ofName h a1 v1 n1).1, rhs := (Scalar.ofName h' a2 v2 n2).1, op := op }
    hpa hpb
  have ht1 : tracks (ScalarBinaryOp.asExpr Scalar.asExpr Scalar.asExpr o)
      { lhs := (Scalar.ofName h a1 v1 n1).1, rhs := (Scalar.ofName h' a2 v2 n2).1, op := op }
      a1 :=
    (binary_tracks _ _ o _ a1).2 (Or.inl ((named_tracks h a1 v1 n1 a1).2 rfl))
  have ht2 : tracks (ScalarBinaryOp.asExpr Scalar.asExpr Scalar.asExpr o)
      { lhs := (Scalar.ofName h a1 v1 n1).1, rhs := (Scalar.ofName h' a2 v2 n2).1, op := op }
      a2 :=
    (binary_tracks _ _ o _ a2).2 (Or.inr ((named_tracks h' a2 v2 n2 a2).2 rfl))
  have hz1 : coefOf Scalar.asExpr (Scalar.ofName h' a2 v2 n2).1 a1 = Double.zero :=
    coefOf_of_not_tracked _ _ a1 (fun hk => hne ((named_tracks h' a2 v2 n2 a1).1 hk))
  have hz2 : coefOf Scalar.asExpr (Scalar.ofName h a1 v1 n1).1 a2 = Double.zero :=
    coefOf_of_not_tracked _ _ a2 (fun hk => hne ((named_tracks h a1 v1 n1 a2).1 hk).symm)
  refine ⟨?_, ?_, ?_⟩
  · rw [at_of_tracked _ _ a1 hp ht1, binary_coef _ _ o _ hpa hpb a1 ht1]
    show Except.ok [Double.add (Double.mul (o.da op v1 v2) (coefOf Scalar.asExpr _ a1))
      (Double.mul (o.db op v1 v2) (coefOf Scalar.asExpr _ a1))] = _
    rw [named_coef, hz1]
  · rw [at_of_tracked _ _ a2 hp ht2, binary_coef _ _ o _ hpa hpb a2 ht2]
    show Except.ok [Double.add (Double.mul (o.da op v1 v2) (coefOf Scalar.asExpr _ a2))
      (Double.mul (o.db op v1 v2) (coefOf Scalar.asExpr _ a2))] = _
    rw [named_coef, hz2]
  · rw [dim_of_unitPacked _ _ hp]
    have hnodup : ([a1, a2] : List ParameterPtr).Nodup := by simp [hne]
    have hmem : ∀ k, k ∈ ((ScalarBinaryOp.asExpr Scalar.asExpr Scalar.asExpr o).parameterMap
        { lhs := (Scalar.ofName h a1 v1 n1).1, rhs := (Scalar.ofName h' a2 v2 n2).1,
          op := op }).keys ↔ k ∈ [a1, a2] := by
      intro k
      have := binary_tracks Scalar.asExpr Scalar.asExpr o
        { lhs := (Scalar.ofName h a1 v1 n1).1, rhs := (Scalar.ofName h' a2 v2 n2).1,
          op := op } k
      unfold tracks at this
      rw [this]
      have t1 := named_tracks h a1 v1 n1 k
      have t2 := named_tracks h' a2 v2 n2 k
      unfold tracks at t1 t2
      rw [t1, t2]
      simp
    rw [length_of_mem_iff _ [a1, a2] (keys_nodup _) hnodup hmem]
    rfl

theorem fresh_ne (h : Heap) (a1 a2 : Addr) (v1 : Double) (n1 : String)
    (fresh : a2 ∉ (Scalar.ofName h a1 v1 n1).2.live) : a1 ≠ a2 := by
  intro e
  apply fresh
  simp [Scalar.ofName, make_shared, Heap.live, e]

/-! ## Sums of declared scalars -/

/-- C11: for two independently declared named scalars `a` and `b` (in
particular `a = Scalar(1, "a")`, `b = Scalar(2, "b")`), `(a+b).at(a.parameters()[0])`
is the 1x1 row holding `1.0`, `(a+b).at(b.parameters()[0])` likewise, and `dim()`
of the sum is 2, for the expression as for its materialisation. -/
theorem sum_derivatives (h : Heap) (a1 a2 : Addr) (v1 v2 : Double) (n1 n2 : String)
    (fresh : a2 ∉ (Scalar.ofName h a1 v1 n1).2.live) :
    (declareTwo h a1 a2 v1 v2 n1 n2).1.parameters[0]? = some a1 ∧
    (declareTwo h a1 a2 v1 v2 n1 n2).2.1.parameters[0]? = some a2 ∧
    scalarSum.at (operatorPlus (declareTwo h a1 a2 v1 v2 n1 n2).1
      (declareTwo h a1 a2 v1 v2 n1 n2).2.1) a1 = Except.ok [Double.one] ∧
    scalarSum.at (operatorPlus (declareTwo h a1 a2 v1 v2 n1 n2).1
      (declareTwo h a1 a2 v1 v2 n1 n2).2.1) a2 = Except.ok [Double.one] ∧
    scalarSum.dim (operatorPlus (declareTwo h a1 a2 v1 v2 n1 n2).1
      (declareTwo h a1 a2 v1 v2 n1 n2).2.1) = 2 ∧
    (Scalar.plus (declareTwo h a1 a2 v1 v2 n1 n2).1
      (declareTwo h a1 a2 v1 v2 n1 n2).2.1).dim = 2 := by
  have hne := fresh_ne h a1 a2 v1 n1 fresh
  have key := two_named AddOp.asOp {} h (Scalar.ofName h a1 v1 n1).2 a1 a2 v1 v2 n1 n2 hne
  have e1 : Double.add (Double.mul Double.one Double.one) (Double.mul Double.one Double.zero) =
      Double.one := by decide!
  have e2 : Double.add (Double.mul Double.one Double.zero) (Double.mul Double.one Double.one) =
      Double.one := by decide!
  refine ⟨rfl, rfl, ?_, ?_, key.2.2, key.2.2⟩
  · have := key.1
    rw [show AddOp.asOp.da {} v1 v2 = Double.one from rfl,
      show AddOp.asOp.db {} v1 v2 = Double.one from rfl, e1] at this
    exact this
  · have := key.2.1
    rw [show AddOp.asOp.da {} v1 v2 = Double.one from rfl,
      show AddOp.asOp.db {} v1 v2 = Double.one from rfl, e2] at this
    exact this

/-- Witness for C11: `a = Scalar(1, "a")` and `b = Scalar(2, "b")` declared on
an empty heap, the allocator handing out 200 then 100. -/
theorem sum_derivatives_witness :
    (100 : Addr) ∉ (Scalar.ofName Heap.empty 200 Double.one "a").2.live ∧
    scalarSum.at (operatorPlus
      (declareTwo Heap.empty 200 100 Double.one Double.two "a" "b").1
      (declareTwo Heap.empty 200 100 Double.one Double.two "a" "b").2.1) 200 =
        Except.ok [Double.one] ∧
    scalarSum.dim (operatorPlus
      (declareTwo Heap.empty 200 100 Double.one Double.two "a" "b").1
      (declareTwo Heap.empty 200 100 Double.one Double.two "a" "b").2.1) = 2 :=
  have key := sum_derivatives Heap.empty 200 100 Double.one Double.two "a" "b" (by decide)
  ⟨by decide, key.2.2.1, key.2.2.2.2.1⟩

/-! ## The example expression -/

theorem example_coefs (libmSin libmCos : Double → Double) (h h' h'' : Heap) (a1 a2 a3 : Addr)
    (n1 n2 n3 : String) (h12 : a1 ≠ a2) (h13 : a1 ≠ a3) (h23 : a2 ≠ a3) :
    (exampleBase libmSin libmCos).at
        (exampleExpr (Scalar.ofName h a1 Double.one n1).1 (Scalar.ofName h' a2 Double.two n2).1
          (Scalar.ofName h'' a3 Double.three n3).1) a1 =
      Except.ok [Double.add
        (Double.mul Double.one (Double.mul (Double.neg Double.one)
          (Double.mul (libmCos (scalarSum.value (operatorPlus (Scalar.ofName h a1 Double.one n1).1
            (Scalar.ofName h' a2 Double.two n2).1)))
            (Double.add (Double.mul Double.one Double.one)
              (Double.mul Double.one Double.zero)))))
        (Double.mul Double.one Double.zero)] ∧
    (exampleBase libmSin libmCos).at
        (exampleExpr (Scalar.ofName h a1 Double.one n1).1 (Scalar.ofName h' a2 Double.two n2).1
          (Scalar.ofName h'' a3 Double.three n3).1) a2 =
      Except.ok [Double.add
        (Double.mul Double.one (Double.mul (Double.neg Double.one)
          (Double.mul (libmCos (scalarSum.value (operatorPlus (Scalar.ofName h a1 Double.one n1).1
            (Scalar.ofName h' a2 Double.two n2).1)))
            (Double.add (Double.mul Double.one Double.zero)
              (Double.mul Double.one Double.one)))))
        (Double.mul Double.one Double.zero)] ∧
    (exampleBase libmSin libmCos).at
        (exampleExpr (Scalar.ofName h a1 Double.one n1).1 (Scalar.ofName h' a2 Double.two n2).1
          (Scalar.ofName h'' a3 Double.three n3).1) a3 =
      Except.ok [Double.add (Double.mul Double.one Double.zero)
        (Double.mul Double.one (Double.add (Double.mul Double.three Double.zero)
          (Double.mul Double.half Double.one)))] := by
  have hpa := named_unitPacked h a1 Double.one n1
  have hpb := named_unitPacked h' a2 Double.two n2
  have hpc := named_unitPacked h'' a3 Double.three n3
  have hph := bare_unitPacked Double.half
  -- the sum `a + b`
  have hps := binary_unitPacked Scalar.asExpr Scalar.asExpr AddOp.asOp
    (operatorPlus (Scalar.ofName h a1 Double.one n1).1 (Scalar.ofName h' a2 Double.two n2).1)
    hpa hpb
  have hts : ∀ k, tracks scalarSum
      (operatorPlus (Scalar.ofName h a1 Double.one n1).1 (Scalar.ofName h' a2 Double.two n2).1) k ↔
      k = a1 ∨ k = a2 := by
    intro k
    rw [show scalarSum = ScalarBinaryOp.asExpr Scalar.asExpr Scalar.asExpr AddOp.asOp from rfl,
      binary_tracks]
    exact or_congr (named_tracks h a1 Double.one n1 k) (named_tracks h' a2 Double.two n2 k)
  have hcs : ∀ k, (k = a1 ∨ k = a2) → coefOf scalarSum
      (operatorPlus (Scalar.ofName h a1 Double.one n1).1 (Scalar.ofName h' a2 Double.two n2).1) k =
      Double.add (Double.mul Double.one (coefOf Scalar.asExpr (Scalar.ofName h a1 Double.one n1).1 k))
        (Double.mul Double.one (coefOf Scalar.asExpr (Scalar.ofName h' a2 Double.two n2).1 k)) :=
    fun k hk => binary_coef Scalar.asExpr Scalar.asExpr AddOp.asOp _ hpa hpb k ((hts k).2 hk)
  -- `sin( a + b )` and its negation
  have hpu := unary_unitPacked scalarSum (SinOp.asOp libmSin libmCos)
    (sin (operatorPlus (Scalar.ofName h a1 Double.one n1).1
      (Scalar.ofName h' a2 Double.two n2).1)) hps
  have hpw := unary_unitPacked
    (ScalarUnaryOp.asExpr Double.mul scalarSum (SinOp.asOp libmSin libmCos)) NegateOp.asOp
    (operatorMinus (sin (operatorPlus (Scalar.ofName h a1 Double.one n1).1
      (Scalar.ofName h' a2 Double.two n2).1))) hpu
  have hcw : ∀ k, (k = a1 ∨ k = a2) → coefOf
      (ScalarUnaryOp.asExpr Double.mul
        (ScalarUnaryOp.asExpr Double.mul scalarSum (SinOp.asOp libmSin libmCos)) NegateOp.asOp)
      (operatorMinus (sin (operatorPlus (Scalar.ofName h a1 Double.one n1).1
        (Scalar.ofName h' a2 Double.two n2).1))) k =
      Double.mul (Double.neg Double.one)
        (Double.mul (libmCos (scalarSum.value (operatorPlus (Scalar.ofName h a1 Double.one n1).1
            (Scalar.ofName h' a2 Double.two n2).1)))
          (Double.add
            (Double.mul Double.one (coefOf Scalar.asExpr (Scalar.ofName h a1 Double.one n1).1 k))
            (Double.mul Double.one
              (coefOf Scalar.asExpr (Scalar.ofName h' a2 Double.two n2).1 k)))) := by
    intro k hk
    have hneg := unary_coef
      (ScalarUnaryOp.asExpr Double.mul scalarSum (SinOp.asOp libmSin libmCos)) NegateOp.asOp
      (operatorMinus (sin (operatorPlus (Scalar.ofName h a1 Double.one n1).1
        (Scalar.ofName h' a2 Double.two n2).1))) hpu k ((hts k).2 hk)
    have hsin := unary_coef scalarSum (SinOp.asOp libmSin libmCos)
      (sin (operatorPlus (Scalar.ofName h a1 Double.one n1).1
        (Scalar.ofName h' a2 Double.two n2).1)) hps k ((hts k).2 hk)
    rw [hneg]
    show Double.mul (Double.neg Double.one) (coefOf
      (ScalarUnaryOp.asExpr Double.mul scalarSum (SinOp.asOp libmSin libmCos))
      (sin (operatorPlus (Scalar.ofName h a1 Double.one n1).1
        (Scalar.ofName h' a2 Double.two n2).1)) k) = _
    rw [hsin]
    show Double.mul (Double.neg Double.one) (Double.mul (libmCos (scalarSum.value (operatorPlus (Scalar.ofName h a1 Double.one n1).1
            (Scalar.ofName h' a2 Double.two n2).1)))
      (coefOf scalarSum (operatorPlus (Scalar.ofName h a1 Double.one n1).1
        (Scalar.ofName h' a2 Double.two n2).1) k)) = _
    rw [hcs k hk]
  have htw : ∀ k, tracks
      (ScalarUnaryOp.asExpr Double.mul
        (ScalarUnaryOp.asExpr Double.mul scalarSum (SinOp.asOp libmSin libmCos)) NegateOp.asOp)
      (operatorMinus (sin (operatorPlus (Scalar.ofName h a1 Double.one n1).1
        (Scalar.ofName h' a2 Double.two n2).1))) k ↔ k = a1 ∨ k = a2 := hts
  -- the product `0.5 * c`
  have hpk := binary_unitPacked Scalar.asExpr Scalar.asExpr MultiplyOp.asOp
    (operatorTimes (Scalar.ofValue Double.half) (Scalar.ofName h'' a3 Double.three n3).1) hph hpc
  have htk : ∀ k, tracks scalarProduct
      (operatorTimes (Scalar.ofValue Double.half) (Scalar.ofName h'' a3 Double.three n3).1) k ↔
      k = a3 := by
    intro k
    rw [show scalarProduct = ScalarBinaryOp.asExpr Scalar.asExpr Scalar.asExpr MultiplyOp.asOp
      from rfl, binary_tracks]
    constructor
    · rintro (hk | hk)
      · exact absurd hk (bare_tracks Double.half k)
      · exact (named_tracks h'' a3 Double.three n3 k).1 hk
    · intro hk
      exact Or.inr ((named_tracks h'' a3 Double.three n3 k).2 hk)
  have hck : coefOf scalarProduct
      (operatorTimes (Scalar.ofValue Double.half) (Scalar.ofName h'' a3 Double.three n3).1) a3 =
      Double.add (Double.mul Double.three Double.zero) (Double.mul Double.half Double.one) := by
    rw [show scalarProduct = ScalarBinaryOp.asExpr Scalar.asExpr Scalar.asExpr MultiplyOp.asOp
      from rfl, binary_coef Scalar.asExpr Scalar.asExpr MultiplyOp.asOp _ hph hpc a3
        ((htk a3).2 rfl)]
    show Double.add (Double.mul Double.three (coefOf Scalar.asExpr (Scalar.ofValue Double.half) a3))
      (Double.mul Double.half (coefOf Scalar.asExpr (Scalar.ofName h'' a3 Double.three n3).1 a3)) = _
    rw [coefOf_of_not_tracked _ _ a3 (bare_tracks Double.half a3), named_coef]
  -- the whole expression
  have hpx : UnitPackedExpr (exampleBase libmSin libmCos)
      (exampleExpr (Scalar.ofName h a1 Double.one n1).1 (Scalar.ofName h' a2 Double.two n2).1
        (Scalar.ofName h'' a3 Double.three n3).1) :=
    binary_unitPacked _ _ AddOp.asOp
      (exampleExpr (Scalar.ofName h a1 Double.one n1).1 (Scalar.ofName h' a2 Double.two n2).1
        (Scalar.ofName h'' a3 Double.three n3).1) hpw hpk
  have htx : ∀ k, tracks (exampleBase libmSin libmCos)
      (exampleExpr (Scalar.ofName h a1 Double.one n1).1 (Scalar.ofName h' a2 Double.two n2).1
        (Scalar.ofName h'' a3 Double.three n3).1) k ↔ (k = a1 ∨ k = a2) ∨ k = a3 := by
    intro k
    unfold exampleBase
    rw [binary_tracks]
    exact or_congr (htw k) (htk k)
  have hcx : ∀ k, ((k = a1 ∨ k = a2) ∨ k = a3) → (exampleBase libmSin libmCos).at
      (exampleExpr (Scalar.ofName h a1 Double.one n1).1 (Scalar.ofName h' a2 Double.two n2).1
        (Scalar.ofName h'' a3 Double.three n3).1) k =
      Except.ok [Double.add
        (Double.mul Double.one (coefOf
          (ScalarUnaryOp.asExpr Double.mul
            (ScalarUnaryOp.asExpr Double.mul scalarSum (SinOp.asOp libmSin libmCos))
            NegateOp.asOp)
          (operatorMinus (sin (operatorPlus (Scalar.ofName h a1 Double.one n1).1
            (Scalar.ofName h' a2 Double.two n2).1))) k))
        (Double.mul Double.one (coefOf scalarProduct
          (operatorTimes (Scalar.ofValue Double.half)
            (Scalar.ofName h'' a3 Double.three n3).1) k))] := by
    intro k hk
    have hcoef : coefOf (exampleBase libmSin libmCos)
        (exampleExpr (Scalar.ofName h a1 Double.one n1).1 (Scalar.ofName h' a2 Double.two n2).1
          (Scalar.ofName h'' a3 Double.three n3).1) k = _ :=
      binary_coef _ _ AddOp.asOp
        (exampleExpr (Scalar.ofName h a1 Double.one n1).1 (Scalar.ofName h' a2 Double.two n2).1
          (Scalar.ofName h'' a3 Double.three n3).1) hpw hpk k ((htx k).2 hk)
    rw [at_of_tracked _ _ k hpx ((htx k).2 hk), hcoef]
    rfl
  have hza : coefOf Scalar.asExpr (Scalar.ofName h a1 Double.one n1).1 a2 = Double.zero :=
    coefOf_of_not_tracked _ _ a2 (fun hk => h12 ((named_tracks h a1 Double.one n1 a2).1 hk).symm)
  have hzb : coefOf Scalar.asExpr (Scalar.ofName h' a2 Double.two n2).1 a1 = Double.zero :=
    coefOf_of_not_tracked _ _ a1 (fun hk => h12 ((named_tracks h' a2 Double.two n2 a1).1 hk))
  refine ⟨?_, ?_, ?_⟩
  · rw [hcx a1 (Or.inl (Or.inl rfl)), hcw a1 (Or.inl rfl), named_coef, hzb,
      coefOf_of_not_tracked _ _ a1 (fun hk => h13 ((htk a1).1 hk))]
  · rw [hcx a2 (Or.inl (Or.inr rfl)), hcw a2 (Or.inr rfl), named_coef, hza,
      coefOf_of_not_tracked _ _ a2 (fun hk => h23 ((htk a2).1 hk))]
  · have hnw : ¬ tracks
        (ScalarUnaryOp.asExpr Double.mul
          (ScalarUnaryOp.asExpr Double.mul scalarSum (SinOp.asOp libmSin libmCos)) NegateOp.asOp)
        (operatorMinus (sin (operatorPlus (Scalar.ofName h a1 Double.one n1).1
          (Scalar.ofName h' a2 Double.two n2).1))) a3 := by
      intro hk
      rcases (htw a3).1 hk with e | e
      · exact h13 e.symm
      · exact h23 e.symm
    rw [hcx a3 (Or.inr rfl), hck, coefOf_of_not_tracked _ _ a3 hnw]

theorem scalarSum_value (a b : Scalar) :
    scalarSum.value (operatorPlus a b) = Double.add a.value b.value := rfl

theorem named_value (h : Heap) (addr : Addr) (v : Double) (n : String) :
    (Scalar.ofName h addr v n).1.value = v := rfl

theorem neg_chain (c : Double) (hfin : c.isFinite = true) (hnz : c.isZero = false) :
    Double.add
      (Double.mul Double.one (Double.mul (Double.neg Double.one) (Double.mul c Double.one)))
      (Double.signedZero false) = Double.neg c := by
  have hfin' : (Double.neg c).isFinite = true := hfin
  have hnz' : (Double.neg c).isZero = false := hnz
  rw [Double.mul_one_of_finite c hfin, Double.negone_mul_of_finite c hfin,
    Double.one_mul_of_finite (Double.neg c) hfin',
    Double.add_signedZero_of_finite (Double.neg c) hfin' hnz' false]

/-- C13: for `x = -sin(a+b) + 0.5*c` with `a = Scalar(1, "a")`, `b = Scalar(2, "b")`,
`c = Scalar(3, "c")`, the derivative of `x` with respect to `a` is
`-cos(a.value + b.value)`, with respect to `b` the same value, and with respect
to `c` exactly `0.5`; `cos` is the function of the numeric library, whose value
at `1.0 + 2.0` is a finite non-zero double. -/
theorem example_chain_rule (libmSin libmCos : Double → Double) (h : Heap) (a1 a2 a3 : Addr)
    (fresh2 : a2 ∉ (Scalar.ofName h a1 Double.one "a").2.live)
    (fresh3 : a3 ∉
      (Scalar.ofName (Scalar.ofName h a1 Double.one "a").2 a2 Double.two "b").2.live)
    (hfin : (libmCos (Double.add Double.one Double.two)).isFinite = true)
    (hnz : (libmCos (Double.add Double.one Double.two)).isZero = false) :
    (declareThree h a1 a2 a3 Double.one Double.two Double.three "a" "b" "c").1.parameters[0]? =
      some a1 ∧
    (declareThree h a1 a2 a3 Double.one Double.two Double.three "a" "b" "c").2.1.parameters[0]? =
      some a2 ∧
    (declareThree h a1 a2 a3 Double.one Double.two Double.three "a" "b" "c").2.2.1.parameters[0]? =
      some a3 ∧
    Scalar.asExpr.at (exampleX libmSin libmCos
        (declareThree h a1 a2 a3 Double.one Double.two Double.three "a" "b" "c").1
        (declareThree h a1 a2 a3 Double.one Double.two Double.three "a" "b" "c").2.1
        (declareThree h a1 a2 a3 Double.one Double.two Double.three "a" "b" "c").2.2.1) a1 =
      Except.ok [Double.neg (libmCos (Double.add
        (declareThree h a1 a2 a3 Double.one Double.two Double.three "a" "b" "c").1.value
        (declareThree h a1 a2 a3 Double.one Double.two Double.three "a" "b" "c").2.1.value))] ∧
    Scalar.asExpr.at (exampleX libmSin libmCos
        (declareThree h a1 a2 a3 Double.one Double.two Double.three "a" "b" "c").1
        (declareThree h a1 a2 a3 Double.one Double.two Double.three "a" "b" "c").2.1
        (declareThree h a1 a2 a3 Double.one Double.two Double.three "a" "b" "c").2.2.1) a2 =
      Except.ok [Double.neg (libmCos (Double.add
        (declareThree h a1 a2 a3 Double.one Double.two Double.three "a" "b" "c").1.value
        (declareThree h a1 a2 a3 Double.one Double.two Double.three "a" "b" "c").2.1.value))] ∧
    Scalar.asExpr.at (exampleX libmSin libmCos
        (declareThree h a1 a2 a3 Double.one Double.two Double.three "a" "b" "c").1
        (declareThree h a1 a2 a3 Double.one Double.two Double.three "a" "b" "c").2.1
        (declareThree h a1 a2 a3 Double.one Double.two Double.three "a" "b" "c").2.2.1) a3 =
      Except.ok [Double.half] := by
  have h12 : a1 ≠ a2 := fresh_ne h a1 a2 Double.one "a" fresh2
  have h23 : a2 ≠ a3 :=
    fresh_ne (Scalar.ofName h a1 Double.one "a").2 a2 a3 Double.two "b" fresh3
  have h13 : a1 ≠ a3 := by
    intro e
    apply fresh3
    simp [Scalar.ofName, make_shared, Heap.live, e]
  have key := example_coefs libmSin libmCos h (Scalar.ofName h a1 Double.one "a").2
    (Scalar.ofName (Scalar.ofName h a1 Double.one "a").2 a2 Double.two "b").2
    a1 a2 a3 "a" "b" "c" h12 h13 h23
  rw [scalarSum_value, named_value, named_value] at key
  have e1 : Double.add (Double.mul Double.one Double.one) (Double.mul Double.one Double.zero) =
      Double.one := by decide!
  have e2 : Double.add (Double.mul Double.one Double.zero) (Double.mul Double.one Double.one) =
      Double.one := by decide!
  have e0 : Double.mul Double.one Double.zero = Double.signedZero false := by decide!
  have e3 : Double.add (Double.signedZero false)
      (Double.mul Double.one (Double.add (Double.mul Double.three Double.zero)
        (Double.mul Double.half Double.one))) = Double.half := by decide!
  have k1 := key.1
  have k2 := key.2.1
  have k3 := key.2.2
  rw [e1, e0, neg_chain _ hfin hnz] at k1
  rw [e2, e0, neg_chain _ hfin hnz] at k2
  rw [e0, e3] at k3
  exact ⟨rfl, rfl, rfl, k1, k2, k3⟩

/-- Witness for C13: an empty heap, the allocator handing out 300, 100, 200,
and stand-ins for the library functions. -/
theorem example_chain_rule_witness :
    (100 : Addr) ∉ (Scalar.ofName Heap.empty 300 Double.one "a").2.live ∧
    (200 : Addr) ∉
      (Scalar.ofName (Scalar.ofName Heap.empty 300 Double.one "a").2 100 Double.two "b").2.live ∧
    (sampleCos (Double.add Double.one Double.two)).isFinite = true ∧
    (sampleCos (Double.add Double.one Double.two)).isZero = false ∧
    Scalar.asExpr.at (exampleX sampleSin sampleCos
        (declareThree Heap.empty 300 100 200 Double.one Double.two Double.three "a" "b" "c").1
        (declareThree Heap.empty 300 100 200 Double.one Double.two Double.three "a" "b" "c").2.1
        (declareThree Heap.empty 300 100 200 Double.one Double.two Double.three "a" "b" "c").2.2.1)
        200 = Except.ok [Double.half] :=
  have key := example_chain_rule sampleSin sampleCos Heap.empty 300 100 200
    (by decide) (by decide) (by decide!) (by decide!)
  ⟨by decide, by decide, by decide!, by decide!, key.2.2.2.2.2⟩

/-! ## Usage errors -/

/-- C14: for every Scalar `s` and every Parameter `p` that is not a key of
`s.parameterMap()`, `s.at(p)` reports an error and returns no segment (neither
a zero nor a truncated one); for every `p` that is a key it returns the segment
of `s.partial()` at the span of `p`. In particular, for two separately declared
scalars `a` and `b`, `a.at(b.parameters()[0])` fails. -/
theorem at_untracked_fails (s : Scalar) (p : ParameterPtr) (h : Heap) (a1 a2 : Addr)
    (v1 v2 : Double) (n1 n2 : String) :
    (p ∉ s.parameterMap.keys →
      Scalar.asExpr.at s p = Except.error UsageError.untrackedParameter ∧
      ∀ seg : Partial, Scalar.asExpr.at s p ≠ Except.ok seg) ∧
    (p ∈ s.parameterMap.keys →
      ∃ sp : Span, (p, sp) ∈ s.parameterMap.entries ∧
        Scalar.asExpr.at s p = Except.ok (segment ( Scalar.partial s) sp)) ∧
    (a2 ∉ (Scalar.ofName h a1 v1 n1).2.live →
      (declareTwo h a1 a2 v1 v2 n1 n2).2.1.parameters[0]? = some a2 ∧
      Scalar.asExpr.at (declareTwo h a1 a2 v1 v2 n1 n2).1 a2 =
        Except.error UsageError.untrackedParameter) := by
  refine ⟨?_, ?_, ?_⟩
  · intro hp
    have herr := at_of_not_tracked Scalar.asExpr s p hp
    refine ⟨herr, ?_⟩
    intro seg hcon
    rw [herr] at hcon
    exact Except.noConfusion hcon
  · intro hp
    obtain ⟨sp, hsp⟩ := (find_isSome_iff_tracks Scalar.asExpr s p).1 hp
    refine ⟨sp, lookupSpan_mem _ p sp hsp, ?_⟩
    unfold ScalarBase.at
    rw [hsp]
    rfl
  · intro fresh
    have hne := fresh_ne h a1 a2 v1 n1 fresh
    refine ⟨rfl, ?_⟩
    apply at_of_not_tracked
    intro hk
    exact hne ((named_tracks h a1 v1 n1 a2).1 hk).symm

/-- Witness for C14: on `sampleScalar` the untracked address 30 is refused and
the tracked address 20 yields its segment; `a = Scalar(1, "a")` refuses the
parameter of `b = Scalar(2, "b")`. -/
theorem at_untracked_fails_witness :
    (30 : ParameterPtr) ∉ sampleScalar.parameterMap.keys ∧
    Scalar.asExpr.at sampleScalar 30 = Except.error UsageError.untrackedParameter ∧
    (100 : Addr) ∉ (Scalar.ofName Heap.empty 200 Double.one "a").2.live ∧
    Scalar.asExpr.at (declareTwo Heap.empty 200 100 Double.one Double.two "a" "b").1 100 =
      Except.error UsageError.untrackedParameter :=
  have key := at_untracked_fails sampleScalar 30 Heap.empty 200 100 Double.one Double.two
    "a" "b"
  ⟨by decide, (key.1 (by decide)).1, by decide, (key.2.2 (by decide)).2⟩

/-- C17: invoking cross on a vector whose number of components is not exactly
3 (for instance 2 or 4) fails with a reported error and produces no result. -/
theorem cross_arity_guard (u v : Vector) (hlen : u.length ≠ 3 ∨ v.length ≠ 3) :
    cross u v = Except.error UsageError.crossArity ∧
    ∀ w : Vector, cross u v ≠ Except.ok w := by
  have hnot : ¬ (u.length = 3 ∧ v.length = 3) := by
    rintro ⟨h1, h2⟩
    rcases hlen with h | h
    · exact h h1
    · exact h h2
  have herr : cross u v = Except.error UsageError.crossArity := by
    unfold cross
    rw [if_neg hnot]
  refine ⟨herr, ?_⟩
  intro w hcon
  rw [herr] at hcon
  exact Except.noConfusion hcon

/-- Witness for C17: a 2-element vector crossed with a 3-element one, and a
4-element vector crossed with itself. -/
theorem cross_arity_guard_witness :
    ([sampleScalar, sampleScalar] : Vector).length ≠ 3 ∧
    cross [sampleScalar, sampleScalar] [sampleScalar, sampleScalar, sampleScalar] =
      Except.error UsageError.crossArity ∧
    cross [sampleScalar, sampleScalar, sampleScalar, sampleScalar]
        [sampleScalar, sampleScalar, sampleScalar, sampleScalar] =
      Except.error UsageError.crossArity :=
  ⟨by decide,
    (cross_arity_guard [sampleScalar, sampleScalar]
      [sampleScalar, sampleScalar, sampleScalar] (Or.inl (by decide))).1,
    (cross_arity_guard [sampleScalar, sampleScalar, sampleScalar, sampleScalar]
      [sampleScalar, sampleScalar, sampleScalar, sampleScalar] (Or.inl (by decide))).1⟩

/-! ## Iteration and read-only access -/

theorem iterate_collects (s : Scalar) :
    ∀ (rest : List (ParameterPtr × Span)) (fuel : Nat) (out : List (ParameterPtr × Partial)),
      rest.length ≤ fuel →
      iterate fuel { owner := s, position := rest } { owner := s, position := [] } out =
        some (out ++ rest.map (fun e => (e.1, segment ( Scalar.partial s) e.2))) := by
  intro rest
  induction rest with
  | nil =>
    intro fuel out _
    cases fuel <;> simp [iterate, Iterator.notEqual]
  | cons e r ih =>
    intro fuel out hlen
    cases fuel with
    | zero => simp at hlen
    | succ f =>
      have hlen' : r.length ≤ f := by simpa using hlen
      have hnext : Iterator.next { owner := s, position := e :: r } =
          { owner := s, position := r } := rfl
      have hderef : Iterator.deref { owner := s, position := e :: r } =
          some (e.1, segment ( Scalar.partial s) e.2) := rfl
      have hne : Iterator.notEqual { owner := s, position := e :: r }
          { owner := s, position := [] } = true := by
        simp [Iterator.notEqual]
      rw [iterate, hne]
      simp only [if_true, hderef, hnext]
      rw [ih f (out ++ [(e.1, segment ( Scalar.partial s) e.2)]) hlen']
      simp

theorem traverse_eq (s : Scalar) :
    s.traverse =
      some (s.parameterMap.entries.map (fun e => (e.1, segment ( Scalar.partial s) e.2))) := by
  have h := iterate_collects s s.parameterMap_.entries s.size [] (Nat.le_refl _)
  simpa using h

/-- C18: every accessor of a Scalar (`value()`, `partial()`, `parameterMap()`,
`dim()`, `size()`, `parameters()`, `begin()`, `end()`) returns its result and
leaves the value, the derivative row and the parameter map as they were; two
calls of `parameters()` and two iterations from `begin()` to `end()` yield the
same sequence of parameters, the keys of `parameterMap()` in map order. -/
theorem introspection_read_only (s : Scalar) :
    ((Scalar.constCall Scalar.value).run s = (s.value, s) ∧
      (Scalar.constCall Scalar.partial).run s = ( Scalar.partial s, s) ∧
      (Scalar.constCall Scalar.parameterMap).run s = (s.parameterMap, s) ∧
      (Scalar.constCall Scalar.dim).run s = (s.dim, s) ∧
      (Scalar.constCall Scalar.size).run s = (s.size, s) ∧
      (Scalar.constCall Scalar.parameters).run s = (s.parameters, s) ∧
      (Scalar.constCall Scalar.begin).run s = (s.begin, s) ∧
      (Scalar.constCall Scalar.end).run s = (s.end, s)) ∧
    ((do
        let first ← Scalar.constCall Scalar.parameters
        let second ← Scalar.constCall Scalar.parameters
        pure (first, second) : StateM Scalar _).run s =
      ((s.parameterMap.keys, s.parameterMap.keys), s)) ∧
    ((do
        let first ← Scalar.constCall Scalar.traverse
        let second ← Scalar.constCall Scalar.traverse
        pure (first, second) : StateM Scalar _).run s =
      ((s.traverse, s.traverse), s)) ∧
    (∃ pairs : List (ParameterPtr × Partial),
      s.traverse = some pairs ∧
      pairs.map Prod.fst = s.parameterMap.keys ∧
      pairs.map Prod.fst = s.parameters ∧
      pairs = s.parameterMap.entries.map (fun e => (e.1, segment ( Scalar.partial s) e.2))) := by
  have hk : s.parameters = s.parameterMap_.keys := parameters_eq_keys s
  refine ⟨⟨rfl, rfl, rfl, rfl, rfl, rfl, rfl, rfl⟩, ?_, rfl, ?_⟩
  · show ((s.parameters, s.parameters), s) = _
    rw [hk]
    rfl
  · refine ⟨_, traverse_eq s, ?_, ?_, rfl⟩
    · simp [ParameterMap.keys, List.map_map, Function.comp_def]
    · rw [hk]
      simp [ParameterMap.keys, Scalar.parameterMap, List.map_map, Function.comp_def]

/-! ## Negation as an involution -/

theorem plus_value (a b : Scalar) : (Scalar.plus a b).value = Double.add a.value b.value := rfl

theorem times_value (a b : Scalar) : (Scalar.times a b).value = Double.mul a.value b.value := rfl

theorem minus_value (a b : Scalar) : (Scalar.minus a b).value = Double.sub a.value b.value := rfl

theorem plus_unitPacked (a b : Scalar) (ha : UnitPackedExpr Scalar.asExpr a)
    (hb : UnitPackedExpr Scalar.asExpr b) : UnitPackedExpr Scalar.asExpr (Scalar.plus a b) :=
  binary_unitPacked Scalar.asExpr Scalar.asExpr AddOp.asOp (operatorPlus a b) ha hb

theorem times_unitPacked (a b : Scalar) (ha : UnitPackedExpr Scalar.asExpr a)
    (hb : UnitPackedExpr Scalar.asExpr b) : UnitPackedExpr Scalar.asExpr (Scalar.times a b) :=
  binary_unitPacked Scalar.asExpr Scalar.asExpr MultiplyOp.asOp (operatorTimes a b) ha hb

theorem plus_tracks (a b : Scalar) (k : ParameterPtr) :
    tracks Scalar.asExpr (Scalar.plus a b) k ↔
      tracks Scalar.asExpr a k ∨ tracks Scalar.asExpr b k :=
  binary_tracks Scalar.asExpr Scalar.asExpr AddOp.asOp (operatorPlus a b) k

theorem times_tracks (a b : Scalar) (k : ParameterPtr) :
    tracks Scalar.asExpr (Scalar.times a b) k ↔
      tracks Scalar.asExpr a k ∨ tracks Scalar.asExpr b k :=
  binary_tracks Scalar.asExpr Scalar.asExpr MultiplyOp.asOp (operatorTimes a b) k

theorem ofName_fst (h : Heap) (addr : Addr) (v : Double) (n : String) :
    (Scalar.ofName h addr v n).1 = (Scalar.ofName Heap.empty addr v "").1 := rfl

theorem createFrom_vector (stem : String) :
    ∀ (components : List (Addr × Double)) (i : Nat) (h : Heap),
      (createFrom stem i h components).1 =
        components.map (fun c => (Scalar.ofName Heap.empty c.1 c.2 "").1) := by
  intro components
  induction components with
  | nil => intro i h; rfl
  | cons c rest ih =>
    intro i h
    obtain ⟨addr, v⟩ := c
    show (Scalar.ofName h addr v (stem ++ toString i)).1 ::
      (createFrom stem (i + 1) (Scalar.ofName h addr v (stem ++ toString i)).2 rest).1 = _
    rw [ih, ofName_fst]
    rfl

theorem dot_three (u0 u1 u2 v0 v1 v2 : Scalar) :
    dot [u0, u1, u2] [v0, v1, v2] =
      Scalar.plus (Scalar.plus (Scalar.times u0 v0) (Scalar.times u1 v1))
        (Scalar.times u2 v2) := rfl

theorem scalar_dim_eq (s : Scalar) : s.dim = Scalar.asExpr.dim s := rfl

/-- C15: for the vectors `s = (1, 2, 3)` and `r = (-2, 3, -1)`, each created
with one named parameter per component, `s.dot(r)` has the value
`1*-2 + 2*3 + 3*-1 = 1.0` and a derivative row of width 6. The six parameters
are alive together, so the allocator has handed out six different addresses. -/
theorem dot_example (h : Heap) (s0 s1 s2 r0 r1 r2 : Addr)
    (distinct : [s0, s1, s2, r0, r1, r2].Nodup) :
    (dot (exampleS h s0 s1 s2).1 (exampleR (exampleS h s0 s1 s2).2 r0 r1 r2).1).value =
      Double.add
        (Double.add (Double.mul Double.one (Double.neg Double.two))
          (Double.mul Double.two Double.three))
        (Double.mul Double.three (Double.neg Double.one)) ∧
    (dot (exampleS h s0 s1 s2).1 (exampleR (exampleS h s0 s1 s2).2 r0 r1 r2).1).value =
      Double.one ∧
    (dot (exampleS h s0 s1 s2).1 (exampleR (exampleS h s0 s1 s2).2 r0 r1 r2).1).dim = 6 := by
  have hS : (exampleS h s0 s1 s2).1 =
      [(Scalar.ofName Heap.empty s0 Double.one "").1,
       (Scalar.ofName Heap.empty s1 Double.two "").1,
       (Scalar.ofName Heap.empty s2 Double.three "").1] :=
    createFrom_vector "s" _ 0 h
  have hR : (exampleR (exampleS h s0 s1 s2).2 r0 r1 r2).1 =
      [(Scalar.ofName Heap.empty r0 (Double.neg Double.two) "").1,
       (Scalar.ofName Heap.empty r1 Double.three "").1,
       (Scalar.ofName Heap.empty r2 (Double.neg Double.one) "").1] :=
    createFrom_vector "r" _ 0 _
  rw [hS, hR, dot_three]
  have hval : (Scalar.plus (Scalar.plus
      (Scalar.times (Scalar.ofName Heap.empty s0 Double.one "").1
        (Scalar.ofName Heap.empty r0 (Double.neg Double.two) "").1)
      (Scalar.times (Scalar.ofName Heap.empty s1 Double.two "").1
        (Scalar.ofName Heap.empty r1 Double.three "").1))
      (Scalar.times (Scalar.ofName Heap.empty s2 Double.three "").1
        (Scalar.ofName Heap.empty r2 (Double.neg Double.one) "").1)).value =
      Double.add
        (Double.add (Double.mul Double.one (Double.neg Double.two))
          (Double.mul Double.two Double.three))
        (Double.mul Double.three (Double.neg Double.one)) := by
    rw [plus_value, plus_value, times_value, times_value, times_value]
    simp only [named_value]
  have hone : Double.add
        (Double.add (Double.mul Double.one (Double.neg Double.two))
          (Double.mul Double.two Double.three))
        (Double.mul Double.three (Double.neg Double.one)) = Double.one := by decide!
  refine ⟨hval, hval.trans hone, ?_⟩
  have hp := plus_unitPacked _ _
    (plus_unitPacked _ _
      (times_unitPacked _ _ (named_unitPacked Heap.empty s0 Double.one "")
        (named_unitPacked Heap.empty r0 (Double.neg Double.two) ""))
      (times_unitPacked _ _ (named_unitPacked Heap.empty s1 Double.two "")
        (named_unitPacked Heap.empty r1 Double.three "")))
    (times_unitPacked _ _ (named_unitPacked Heap.empty s2 Double.three "")
      (named_unitPacked Heap.empty r2 (Double.neg Double.one) ""))
  rw [scalar_dim_eq, dim_of_unitPacked _ _ hp]
  have hmem : ∀ k, k ∈ (Scalar.asExpr.parameterMap (Scalar.plus (Scalar.plus
      (Scalar.times (Scalar.ofName Heap.empty s0 Double.one "").1
        (Scalar.ofName Heap.empty r0 (Double.neg Double.two) "").1)
      (Scalar.times (Scalar.ofName Heap.empty s1 Double.two "").1
        (Scalar.ofName Heap.empty r1 Double.three "").1))
      (Scalar.times (Scalar.ofName Heap.empty s2 Double.three "").1
        (Scalar.ofName Heap.empty r2 (Double.neg Double.one) "").1))).keys ↔
      k ∈ [s0, s1, s2, r0, r1, r2] := by
    intro k
    show tracks Scalar.asExpr _ k ↔ _
    rw [plus_tracks, plus_tracks, times_tracks, times_tracks, times_tracks, named_tracks,
      named_tracks, named_tracks, named_tracks, named_tracks, named_tracks]
    simp only [List.mem_cons, List.mem_singleton, List.not_mem_nil, or_false]
    tauto
  rw [length_of_mem_iff _ _ (keys_nodup _) distinct hmem]
  rfl

/-- Witness for C15: an empty heap and six addresses in no particular order. -/
theorem dot_example_witness :
    ([40, 10, 60, 30, 50, 20] : List Addr).Nodup ∧
    (dot (exampleS Heap.empty 40 10 60).1
      (exampleR (exampleS Heap.empty 40 10 60).2 30 50 20).1).value = Double.one ∧
    (dot (exampleS Heap.empty 40 10 60).1
      (exampleR (exampleS Heap.empty 40 10 60).2 30 50 20).1).dim = 6 :=
  have key := dot_example Heap.empty 40 10 60 30 50 20 (by decide)
  ⟨by decide, key.2.1, key.2.2⟩

theorem crossComponent_value (u v : Vector) (i : Nat) :
    (crossComponent u v i).value =
      Double.sub
        (Double.mul (u.getD ((i + 1) % 3) Scalar.ofNothing).value
          (v.getD ((i + 2) % 3) Scalar.ofNothing).value)
        (Double.mul (u.getD ((i + 2) % 3) Scalar.ofNothing).value
          (v.getD ((i + 1) % 3) Scalar.ofNothing).value) := by
  unfold crossComponent
  rw [minus_value, times_value, times_value]

theorem cross_of_three (u v : Vector) (hu : u.length = 3) (hv : v.length = 3) :
    cross u v =
      Except.ok [crossComponent u v 0, crossComponent u v 1, crossComponent u v 2] := by
  unfold cross
  rw [if_pos ⟨hu, hv⟩]
  rfl

/-- C16: for every pair of 3-element vectors `u` and `v`, `cross(u, v)` has
exactly 3 components and component `i` has the value
`u[(i+1)%3]*v[(i+2)%3] - u[(i+2)%3]*v[(i+1)%3]`; for `s = (1, 2, 3)` and
`r = (-2, 3, -1)`, component 0 of `s.cross(r)` is `2*-1 - 3*3 = -11`. -/
theorem cross_components (u v : Vector) (hu : u.length = 3) (hv : v.length = 3)
    (h : Heap) (s0 s1 s2 r0 r1 r2 : Addr) :
    (∃ w : Vector, cross u v = Except.ok w ∧ w.length = 3 ∧
      ∀ i : Nat, i < 3 →
        (w.getD i Scalar.ofNothing).value =
          Double.sub
            (Double.mul (u.getD ((i + 1) % 3) Scalar.ofNothing).value
              (v.getD ((i + 2) % 3) Scalar.ofNothing).value)
            (Double.mul (u.getD ((i + 2) % 3) Scalar.ofNothing).value
              (v.getD ((i + 1) % 3) Scalar.ofNothing).value)) ∧
    (∃ w : Vector,
      cross (exampleS h s0 s1 s2).1 (exampleR (exampleS h s0 s1 s2).2 r0 r1 r2).1 =
        Except.ok w ∧ w.length = 3 ∧
      (w.getD 0 Scalar.ofNothing).value =
        Double.sub (Double.mul Double.two (Double.neg Double.one))
          (Double.mul Double.three Double.three) ∧
      (w.getD 0 Scalar.ofNothing).value = Double.minusEleven) := by
  constructor
  · refine ⟨_, cross_of_three u v hu hv, rfl, ?_⟩
    intro i hi
    have hcases : i = 0 ∨ i = 1 ∨ i = 2 := by omega
    rcases hcases with rfl | rfl | rfl
    · exact crossComponent_value u v 0
    · exact crossComponent_value u v 1
    · exact crossComponent_value u v 2
  · have hS : (exampleS h s0 s1 s2).1 =
        [(Scalar.ofName Heap.empty s0 Double.one "").1,
         (Scalar.ofName Heap.empty s1 Double.two "").1,
         (Scalar.ofName Heap.empty s2 Double.three "").1] :=
      createFrom_vector "s" _ 0 h
    have hR : (exampleR (exampleS h s0 s1 s2).2 r0 r1 r2).1 =
        [(Scalar.ofName Heap.empty r0 (Double.neg Double.two) "").1,
         (Scalar.ofName Heap.empty r1 Double.three "").1,
         (Scalar.ofName Heap.empty r2 (Double.neg Double.one) "").1] :=
      createFrom_vector "r" _ 0 _
    rw [hS, hR]
    have hval := crossComponent_value
      [(Scalar.ofName Heap.empty s0 Double.one "").1,
       (Scalar.ofName Heap.empty s1 Double.two "").1,
       (Scalar.ofName Heap.empty s2 Double.three "").1]
      [(Scalar.ofName Heap.empty r0 (Double.neg Double.two) "").1,
       (Scalar.ofName Heap.empty r1 Double.three "").1,
       (Scalar.ofName Heap.empty r2 (Double.neg Double.one) "").1] 0
    have hval' : (crossComponent
        [(Scalar.ofName Heap.empty s0 Double.one "").1,
         (Scalar.ofName Heap.empty s1 Double.two "").1,
         (Scalar.ofName Heap.empty s2 Double.three "").1]
        [(Scalar.ofName Heap.empty r0 (Double.neg Double.two) "").1,
         (Scalar.ofName Heap.empty r1 Double.three "").1,
         (Scalar.ofName Heap.empty r2 (Double.neg Double.one) "").1] 0).value =
        Double.sub (Double.mul Double.two (Double.neg Double.one))
          (Double.mul Double.three Double.three) := hval
    have heleven : Double.sub (Double.mul Double.two (Double.neg Double.one))
        (Double.mul Double.three Double.three) = Double.minusEleven := by decide!
    exact ⟨_, cross_of_three _ _ rfl rfl, rfl, hval', hval'.trans heleven⟩

/-- Witness for C16: the example vectors themselves, crossed. -/
theorem cross_components_witness :
    (exampleS Heap.empty 40 10 60).1.length = 3 ∧
    (exampleR (exampleS Heap.empty 40 10 60).2 30 50 20).1.length = 3 ∧
    (∃ w : Vector,
      cross (exampleS Heap.empty 40 10 60).1
        (exampleR (exampleS Heap.empty 40 10 60).2 30 50 20).1 = Except.ok w ∧
      w.length = 3) :=
  have hu : (exampleS Heap.empty 40 10 60).1.length = 3 := rfl
  have hv : (exampleR (exampleS Heap.empty 40 10 60).2 30 50 20).1.length = 3 := rfl
  have key := cross_components (exampleS Heap.empty 40 10 60).1
    (exampleR (exampleS Heap.empty 40 10 60).2 30 50 20).1 hu hv Heap.empty 40 10 60 30 50 20
  ⟨hu, hv, key.1.elim (fun w hw => ⟨w, hw.1, hw.2.1⟩)⟩

end metal
